import Mathlib

/-!
Verification development for the webhook ingestion and call/message
state-aggregation pipeline of a multi-tenant CRM/telephony backend.

The Python webhook handlers (src/webhook/telnyx.py, src/webhook/pipecat.py,
src/webhook/tools_webhook.py) are shallowly embedded: JSON values become an
inductive `Json` type, MongoDB collections become Lean lists of documents,
MongoDB update operations (update_one / find_one_and_update with $set,
$setOnInsert, $push, $addToSet and dotted paths) become explicit functions on
those lists, and the Flask request handlers become pure functions from
(request, state) to (response, state).  Wall-clock times (datetime.now) are
an abstract `Nat` parameter.  Cryptographic primitives (Ed25519 verification,
HMAC-SHA256 digests) are abstract oracle parameters: the control flow around
them is embedded exactly, the mathematics of the primitives is not.

Modelling conventions:
* Python `None` is `Json.null`; `dict.get(k)` on a missing key yields
  `Json.null`, matching Python returning `None`.
* Code paths on which the Python handler would raise an uncaught exception
  from a type confusion (for example calling `.get` on a non-dict, or
  `{**x}` where `x` is not a dict) are outside the scope of every theorem
  below; the accessor functions return a default in those cases and theorem
  hypotheses keep inputs within the non-raising shapes.
* Python `set` values (reason-code union, timestamp sets) have unspecified
  iteration order; they are modelled as order-preserving deduplication,
  and no theorem depends on the resulting order.
-/

/-- JSON values as delivered to the webhook endpoints.  Numbers are modelled
as integers: no claim under verification involves fractional payload data. -/
inductive Json where
  | null
  | str (s : String)
  | num (n : Int)
  | bool (b : Bool)
  | arr (items : List Json)
  | obj (fields : List (String × Json))

mutual
def Json.beq : Json → Json → Bool
  | .null, .null => true
  | .str a, .str b => a == b
  | .num a, .num b => a == b
  | .bool a, .bool b => a == b
  | .arr a, .arr b => Json.beqItems a b
  | .obj a, .obj b => Json.beqFields a b
  | _, _ => false

def Json.beqItems : List Json → List Json → Bool
  | [], [] => true
  | a :: as, b :: bs => Json.beq a b && Json.beqItems as bs
  | _, _ => false

def Json.beqFields : List (String × Json) → List (String × Json) → Bool
  | [], [] => true
  | (ka, va) :: as, (kb, vb) :: bs => ka == kb && Json.beq va vb && Json.beqFields as bs
  | _, _ => false
end

/-- Structural induction principle for `Json` that exposes membership in the
nested lists. -/
def Json.recMem {P : Json → Prop}
    (hnull : P .null) (hstr : ∀ s, P (.str s)) (hnum : ∀ n, P (.num n))
    (hbool : ∀ b, P (.bool b))
    (harr : ∀ items, (∀ v ∈ items, P v) → P (.arr items))
    (hobj : ∀ fields, (∀ kv ∈ fields, P kv.2) → P (.obj fields)) :
    ∀ j, P j
  | .null => hnull
  | .str s => hstr s
  | .num n => hnum n
  | .bool b => hbool b
  | .arr items => harr items (fun v _ =>
      Json.recMem hnull hstr hnum hbool harr hobj v)
  | .obj fields => hobj fields (fun kv _ =>
      Json.recMem hnull hstr hnum hbool harr hobj kv.2)
termination_by j => sizeOf j
decreasing_by
  · rename_i hv
    have := List.sizeOf_lt_of_mem hv
    simp only [Json.arr.sizeOf_spec]
    omega
  · rename_i hkv
    have h1 := List.sizeOf_lt_of_mem hkv
    have h2 : sizeOf kv.2 < sizeOf kv := by
      obtain ⟨k, v⟩ := kv
      simp only [Prod.mk.sizeOf_spec]
      omega
    simp only [Json.obj.sizeOf_spec]
    omega

theorem Json.beq_refl : ∀ j : Json, Json.beq j j = true := by
  intro j
  induction j using Json.recMem with
  | hnull => rfl
  | hstr s => simp [Json.beq]
  | hnum n => simp [Json.beq]
  | hbool b => simp [Json.beq]
  | harr items ih =>
    simp only [Json.beq]
    induction items with
    | nil => rfl
    | cons a as ih2 =>
      simp only [Json.beqItems, Bool.and_eq_true]
      exact ⟨ih a (by simp), ih2 (fun v hv => ih v (by simp [hv]))⟩
  | hobj fields ih =>
    simp only [Json.beq]
    induction fields with
    | nil => rfl
    | cons a as ih2 =>
      simp only [Json.beqFields, Bool.and_eq_true]
      refine ⟨⟨by simp, ih a (by simp)⟩, ih2 (fun kv hkv => ih kv (by simp [hkv]))⟩

theorem Json.eq_of_beq : ∀ a b : Json, Json.beq a b = true → a = b := by
  intro a
  induction a using Json.recMem with
  | hnull => intro b; cases b <;> simp [Json.beq]
  | hstr s => intro b; cases b <;> simp [Json.beq]
  | hnum n => intro b; cases b <;> simp [Json.beq]
  | hbool b0 => intro b; cases b <;> simp [Json.beq]
  | harr items ih =>
    intro b
    cases b with
    | null => intro h; exact absurd h (by simp [Json.beq])
    | str s => intro h; exact absurd h (by simp [Json.beq])
    | num n => intro h; exact absurd h (by simp [Json.beq])
    | bool b0 => intro h; exact absurd h (by simp [Json.beq])
    | obj fields2 => intro h; exact absurd h (by simp [Json.beq])
    | arr items2 =>
      simp only [Json.beq]
      intro h
      congr 1
      induction items generalizing items2 with
      | nil => cases items2 with
        | nil => rfl
        | cons _ _ => exact absurd h (by simp [Json.beqItems])
      | cons a as ih2 =>
        cases items2 with
        | nil => exact absurd h (by simp [Json.beqItems])
        | cons b bs =>
          simp only [Json.beqItems, Bool.and_eq_true] at h
          have h1 := ih a (by simp) b h.1
          have h2 := ih2 (fun v hv => ih v (by simp [hv])) bs h.2
          rw [h1, h2]
  | hobj fields ih =>
    intro b
    cases b with
    | null => intro h; exact absurd h (by simp [Json.beq])
    | str s => intro h; exact absurd h (by simp [Json.beq])
    | num n => intro h; exact absurd h (by simp [Json.beq])
    | bool b0 => intro h; exact absurd h (by simp [Json.beq])
    | arr items2 => intro h; exact absurd h (by simp [Json.beq])
    | obj fields2 =>
      simp only [Json.beq]
      intro h
      congr 1
      induction fields generalizing fields2 with
      | nil => cases fields2 with
        | nil => rfl
        | cons _ _ => exact absurd h (by simp [Json.beqFields])
      | cons a as ih2 =>
        cases fields2 with
        | nil => exact absurd h (by simp [Json.beqFields])
        | cons b bs =>
          obtain ⟨ka, va⟩ := a
          obtain ⟨kb, vb⟩ := b
          simp only [Json.beqFields, Bool.and_eq_true] at h
          have h1 := ih ⟨ka, va⟩ (by simp) vb h.1.2
          have h2 := ih2 (fun kv hkv => ih kv (by simp [hkv])) bs h.2
          simp only at h1
          have h3 : ka = kb := by simpa using h.1.1
          rw [h1, h2, h3]

instance : DecidableEq Json := fun a b =>
  decidable_of_iff (Json.beq a b = true)
    ⟨Json.eq_of_beq a b, fun h => h ▸ Json.beq_refl a⟩

/-- Python truthiness of a JSON value: `None`, `""`, `0`, `False` and empty
containers are falsy, everything else is truthy. -/
def jsonTruthy : Json → Bool
  | .null => false
  | .str s => !(s = "")
  | .num n => !(n = 0)
  | .bool b => b
  | .arr items => !items.isEmpty
  | .obj fields => !fields.isEmpty

/-- First binding of a key in a JSON object field list.  Python dicts have
unique keys, so on inputs that came from parsed JSON this is the binding. -/
def lookupField : List (String × Json) → String → Option Json
  | [], _ => none
  | (k, v) :: rest, key => if k = key then some v else lookupField rest key

/-- Python `d.get(key)`: `None` when the key is absent.  On a non-dict
receiver Python raises; here we return `null` (see modelling conventions). -/
def jget (j : Json) (key : String) : Json :=
  match j with
  | .obj fields => (lookupField fields key).getD .null
  | _ => .null

/-- Python `d.get(key, default)`. -/
def jgetD (j : Json) (key : String) (dflt : Json) : Json :=
  match j with
  | .obj fields => (lookupField fields key).getD dflt
  | _ => dflt

/-- Python `a or b`: `b` when `a` is falsy, else `a`. -/
def jor (a b : Json) : Json := if jsonTruthy a then a else b

/-- Python dict assignment `d[k] = v`: replaces the first binding of `k`
keeping its position, else appends a new binding. -/
def assocSet {α : Type} : List (String × α) → String → α → List (String × α)
  | [], k, v => [(k, v)]
  | (k0, v0) :: rest, k, v =>
    if k0 = k then (k0, v) :: rest else (k0, v0) :: assocSet rest k v

/-- Python `{**base, **extra}`: the overriding dict merge. -/
def mergeFields (base extra : List (String × Json)) : List (String × Json) :=
  extra.foldl (fun acc kv => assocSet acc kv.1 kv.2) base

/-!  clean_none_values (src/webhook/pipecat.py lines 113-143): recursively
remove `None` values and empty strings from nested dicts and lists; a nested
dict/list is kept only when the cleaned value is truthy (non-empty);
`False` and `0` are kept.  -/

mutual
def cleanNoneValues : Json → Json
  | .obj fields => .obj (cleanFields fields)
  | .arr items => .arr (cleanItems items)
  | v => v

def cleanKeep : Json → Option Json
  | .null => none
  | .str s => if s = "" then none else some (.str s)
  | .obj fs =>
    let cv : Json := .obj (cleanFields fs)
    if jsonTruthy cv then some cv else none
  | .arr its =>
    let cv : Json := .arr (cleanItems its)
    if jsonTruthy cv then some cv else none
  | v => some v

def cleanFields : List (String × Json) → List (String × Json)
  | [] => []
  | (k, v) :: rest =>
    match cleanKeep v with
    | some cv => (k, cv) :: cleanFields rest
    | none => cleanFields rest

def cleanItems : List Json → List Json
  | [] => []
  | v :: rest =>
    match cleanKeep v with
    | some cv => cv :: cleanItems rest
    | none => cleanItems rest
end

/-- The decision `clean_none_values` takes for one dict or list member is
shared between the dict and the list loop of the source: `cleanKeep`
returns the cleaned member, or nothing when the member is dropped. -/
theorem cleanKeep_eq_clean (v : Json) :
    cleanKeep v = match v with
      | .null => none
      | .str s => if s = "" then none else some (.str s)
      | .obj fs =>
        if jsonTruthy (cleanNoneValues (.obj fs)) then some (cleanNoneValues (.obj fs))
        else none
      | .arr its =>
        if jsonTruthy (cleanNoneValues (.arr its)) then some (cleanNoneValues (.arr its))
        else none
      | v => some v := by
  cases v <;> rfl

/-- A value that a cleaned payload must never contain as a member:
`None`, the empty string, an empty dict or an empty list. -/
def jsonIsBad : Json → Bool
  | .null => true
  | .str s => s = ""
  | .arr items => items.isEmpty
  | .obj fields => fields.isEmpty
  | _ => false

mutual
def allCleanVal : Json → Bool
  | .arr items => allCleanItems items
  | .obj fields => allCleanFields fields
  | _ => true

def allCleanItems : List Json → Bool
  | [] => true
  | v :: rest => !jsonIsBad v && allCleanVal v && allCleanItems rest

def allCleanFields : List (String × Json) → Bool
  | [] => true
  | (_, v) :: rest => !jsonIsBad v && allCleanVal v && allCleanFields rest
end

/-!  Telnyx SMS/MMS webhook (src/webhook/telnyx.py).  -/

/-- Environment-driven configuration of the Telnyx webhook handler.
An unset environment variable is the empty string (the source applies
`.strip()` to the raw value). -/
structure TelnyxConfig where
  naclAvailable : Bool
  publicKey : String
  webhookSecret : String
deriving DecidableEq

/-- Outcome of the PyNaCl Ed25519 check inside `_verify_v2_signature`,
abstracting the cryptography: `ok` means `verify_key.verify` returned,
`failure` covers `BadSignatureError` and every decoding exception.  A
signature with a tampered byte is a `failure` outcome. -/
inductive EdOutcome where
  | ok
  | failure
deriving DecidableEq

/-- Embedding of `_verify_v2_signature` (telnyx.py lines 95-119): Ed25519
over `"{timestamp}|{raw_body}"`.  `edVerify` is the abstract cryptographic
oracle taking timestamp, raw body, base64 signature and base64 public key.
Every failure path returns `false`; the function never raises. -/
def verifyV2Signature (cfg : TelnyxConfig)
    (edVerify : String → String → String → String → EdOutcome)
    (timestamp rawBody signatureB64 : String) : Bool :=
  if !cfg.naclAvailable then false
  else if cfg.publicKey = "" then false
  else match edVerify timestamp rawBody signatureB64 cfg.publicKey with
    | .ok => true
    | .failure => false

/-- Python `part.split('=', 1)` guarded by `'=' in part`: the key and the
remainder of the first split, or nothing when `part` has no `=`. -/
def parseSigPart (part : String) : Option (String × String) :=
  match part.splitOn "=" with
  | [] => none
  | [_] => none
  | k :: rest => some (k, String.intercalate "=" rest)

/-- Parsing of the `t=<ts>,v1=<sig>` header into a dict (later duplicate
keys overwrite earlier ones, as Python dict assignment does). -/
def parseSignatureHeader (header : String) : List (String × String) :=
  (header.splitOn ",").foldl (fun acc part =>
    match parseSigPart part with
    | some (k, v) => assocSet acc k v
    | none => acc) []

/-- First binding of a key in a string association list. -/
def lookupStr : List (String × String) → String → Option String
  | [], _ => none
  | (k, v) :: rest, key => if k = key then some v else lookupStr rest key

/-- Embedding of `_verify_v1_signature` (telnyx.py lines 121-163): HMAC
SHA-256 over `"{timestamp}.{raw_body}"` with the configured shared secret.
`hmacSha256Hex` is the abstract digest oracle taking the secret and the
signed payload.  Missing secret, malformed header and missing parts all
return `false`; the function never raises. -/
def verifyV1Signature (cfg : TelnyxConfig)
    (hmacSha256Hex : String → String → String)
    (signatureHeader rawBody : String) : Bool :=
  if cfg.webhookSecret = "" then false
  else
    let sigParts := parseSignatureHeader signatureHeader
    match lookupStr sigParts "t", lookupStr sigParts "v1" with
    | some timestamp, some signature =>
      if timestamp = "" ∨ signature = "" then false
      else
        let signedPayload := timestamp ++ "." ++ rawBody
        let expected := hmacSha256Hex cfg.webhookSecret signedPayload
        signature = expected
    | _, _ => false

/-- Flattened record produced by `_normalize_event` (telnyx.py lines
166-235). -/
structure NormalizedEvent where
  event_id : Json
  event_type : Json
  occurred_at : Json
  message_id : Json
  direction : Json
  msg_type : Json
  from_addr : Json
  to_list : List Json
  text : Json
  encoding : Json
  media : Json
  errors : Json
  cost : Json
  status : Json
  messaging_profile_id : Json
  timestamps : Json
  raw_event : Json
  ingested_at : Nat
deriving DecidableEq

/-- Embedding of `_normalize_event`: flatten the nested carrier event while
keeping the full original payload under `raw_event`. -/
def normalizeEvent (evt : Json) (now : Nat) : NormalizedEvent :=
  let data := jgetD evt "data" (.obj [])
  let payload := jor (jgetD data "payload" (.obj [])) (.obj [])
  let rawFrom := jget payload "from"
  let from_addr : Json :=
    match rawFrom with
    | .obj _ => jor (jget rawFrom "phone_number") (jget rawFrom "address")
    | .str s => .str s
    | _ => .null
  let rawTo := jgetD payload "to" (.arr [])
  let to_list : List Json :=
    match rawTo with
    | .arr entries => entries.filterMap (fun e =>
        match e with
        | .obj _ => some (jor (jget e "phone_number") (jget e "address"))
        | .str s => some (.str s)
        | _ => none)
    | .str s => [.str s]
    | _ => []
  { event_id := jget data "id"
    event_type := jget data "event_type"
    occurred_at := jget data "occurred_at"
    message_id := jget payload "id"
    direction := jget payload "direction"
    msg_type := jget payload "type"
    from_addr := from_addr
    to_list := to_list
    text := jget payload "text"
    encoding := jget payload "encoding"
    media := jor (jget payload "media") (.arr [])
    errors := jor (jget payload "errors") (.arr [])
    cost := jor (jget payload "cost") (.obj [])
    status := jget payload "status"
    messaging_profile_id := jget payload "messaging_profile_id"
    timestamps := .obj [
      ("received_at", jget payload "received_at"),
      ("sent_at", jget payload "sent_at"),
      ("completed_at", jget payload "completed_at")]
    raw_event := evt
    ingested_at := now }

/-- Document of the `telnyx_webhook_events` collection. -/
structure WebhookEventDoc where
  event_id : Json
  first_seen_at : Nat
  event_type : Json
  occurred_at : Json
  raw_event : Json
  last_seen_at : Nat
  verification_method : String
deriving DecidableEq

/-- Embedding of the idempotent event upsert (telnyx.py lines 326-343):
`update_one({"event_id": eid}, {"$setOnInsert": {event_id, first_seen_at},
"$set": {event_type, occurred_at, raw_event, last_seen_at,
verification_method}}, upsert=True)`.  The unique index on `event_id`
guarantees at most one matching document; the list is scanned for the first
match, which is refreshed; absent a match a new document is inserted. -/
def upsertWebhookEvent (store : List WebhookEventDoc) (eid etype occ raw : Json)
    (method : String) (now : Nat) : List WebhookEventDoc :=
  match store with
  | [] =>
      [{ event_id := eid, first_seen_at := now, event_type := etype,
         occurred_at := occ, raw_event := raw, last_seen_at := now,
         verification_method := method }]
  | d :: rest =>
      if d.event_id = eid then
        { d with event_type := etype, occurred_at := occ, raw_event := raw,
                 last_seen_at := now, verification_method := method } :: rest
      else d :: upsertWebhookEvent rest eid etype occ raw method now

/-- Document of the `telnyx_messages` collection. -/
structure MessageDoc where
  message_id : Json
  created_at : Nat
  direction : Json
  msg_type : Json
  from_addr : Json
  to_list : List Json
  text : Json
  encoding : Json
  media : Json
  errors : Json
  cost : Json
  status : Json
  messaging_profile_id : Json
  timestamps : Json
  last_event_type : Json
  last_event_id : Json
  last_occurred_at : Json
  updated_at : Nat
  verification_method : String
  event_ids : List Json
deriving DecidableEq

/-- Latest-state refresh of a message document by the `$set` branch of the
message upsert (telnyx.py lines 345-384), plus `$addToSet` of the event id
when one is present. -/
def refreshMessageDoc (d : MessageDoc) (n : NormalizedEvent) (method : String)
    (now : Nat) : MessageDoc :=
  let d1 := { d with
    direction := n.direction, msg_type := n.msg_type, from_addr := n.from_addr,
    to_list := n.to_list, text := n.text, encoding := n.encoding,
    media := n.media, errors := n.errors, cost := n.cost, status := n.status,
    messaging_profile_id := n.messaging_profile_id, timestamps := n.timestamps,
    last_event_type := n.event_type, last_event_id := n.event_id,
    last_occurred_at := n.occurred_at, updated_at := now,
    verification_method := method }
  if jsonTruthy n.event_id then
    if n.event_id ∈ d1.event_ids then d1
    else { d1 with event_ids := d1.event_ids ++ [n.event_id] }
  else d1

/-- Embedding of the message upsert: filter by `message_id`; `$setOnInsert`
sets `message_id` and `created_at`; the `$set` document never contains the
filter key. -/
def upsertMessage (store : List MessageDoc) (n : NormalizedEvent)
    (method : String) (now : Nat) : List MessageDoc :=
  match store with
  | [] =>
      [refreshMessageDoc
        { message_id := n.message_id, created_at := now,
          direction := .null, msg_type := .null, from_addr := .null,
          to_list := [], text := .null, encoding := .null, media := .null,
          errors := .null, cost := .null, status := .null,
          messaging_profile_id := .null, timestamps := .null,
          last_event_type := .null, last_event_id := .null,
          last_occurred_at := .null, updated_at := now,
          verification_method := method, event_ids := [] } n method now]
  | d :: rest =>
      if d.message_id = n.message_id then
        refreshMessageDoc d n method now :: rest
      else d :: upsertMessage rest n method now

/-- Signature-relevant headers of an inbound SMS webhook request.  A header
is `none` when absent; Python treats an empty header value as absent too
(`if v2_sig and v2_ts`). -/
structure SmsHeaders where
  v2Signature : Option String
  v2Timestamp : Option String
  v1Signature : Option String
deriving DecidableEq

/-- Python truthiness of an optional header value. -/
def hdrTruthy : Option String → Bool
  | some s => !(s = "")
  | none => false

/-- Verification chain of the SMS endpoint (telnyx.py lines 269-297):
Ed25519 is tried first when both v2 headers are present; HMAC-SHA256 is the
fallback only when Ed25519 was absent or failed.  Returns the verdict and
the verification method string. -/
def smsVerify (cfg : TelnyxConfig)
    (edVerify : String → String → String → String → EdOutcome)
    (hmacSha256Hex : String → String → String)
    (hdrs : SmsHeaders) (rawBody : String) : Bool × String :=
  let v2 :=
    if hdrTruthy hdrs.v2Signature && hdrTruthy hdrs.v2Timestamp then
      verifyV2Signature cfg edVerify (hdrs.v2Timestamp.getD "") rawBody
        (hdrs.v2Signature.getD "")
    else false
  if v2 then (true, "ed25519")
  else
    let v1 :=
      if hdrTruthy hdrs.v1Signature then
        verifyV1Signature cfg hmacSha256Hex (hdrs.v1Signature.getD "") rawBody
      else false
    if v1 then (true, "hmac-sha256") else (false, "none")

/-- Response of the SMS endpoint. -/
inductive SmsResponse where
  | ok (event_id message_id : Json) (method : String)
  | badRequest
  | unauthorized
deriving DecidableEq

/-- The two Telnyx collections touched by the SMS endpoint. -/
structure SmsState where
  events : List WebhookEventDoc
  messages : List MessageDoc
deriving DecidableEq

/-- Embedding of `telnyx_sms_webhook` (telnyx.py lines 250-403):
parse (`parsedEvent` is the result of `json.loads` on the raw body), verify
the signature, normalize, then idempotently upsert the raw event and the
message aggregate.  An unverified request is answered 401 before any
database access. -/
def telnyxSmsWebhook (cfg : TelnyxConfig)
    (edVerify : String → String → String → String → EdOutcome)
    (hmacSha256Hex : String → String → String)
    (hdrs : SmsHeaders) (rawBody : String) (parsedEvent : Option Json)
    (now : Nat) (st : SmsState) : SmsResponse × SmsState :=
  match parsedEvent with
  | none => (.badRequest, st)
  | some event =>
    let vm := smsVerify cfg edVerify hmacSha256Hex hdrs rawBody
    if !vm.1 then (.unauthorized, st)
    else
      let n := normalizeEvent event now
      let st1 :=
        if jsonTruthy n.event_id then
          { st with events := (upsertWebhookEvent st.events n.event_id
              n.event_type n.occurred_at n.raw_event vm.2 now) }
        else st
      let st2 :=
        if jsonTruthy n.message_id then
          { st1 with messages := upsertMessage st1.messages n vm.2 now }
        else st1
      (.ok n.event_id n.message_id vm.2, st2)

/-!  Pipecat call webhook (src/webhook/pipecat.py, `handle_call_webhook`,
lines 289-500).  Call documents carry arbitrary top-level keys, so they are
modelled as association lists, with MongoDB `$set` on dotted paths and
`$push` on the conversation log made explicit.  -/

/-- A document of the `calls` collection. -/
abbrev CallDoc := List (String × Json)

/-- Nested object stored under a key of a call document, as used by
`existing_call.get(key, {})` at the merge sites; a non-dict stored value is
outside the scope of the theorems (Python would raise). -/
def getObjFields (d : CallDoc) (k : String) : List (String × Json) :=
  match lookupField d k with
  | some (.obj fs) => fs
  | _ => []

/-- The `$or` filter of `handle_call_webhook`: a document matches when its
`call_key` or its `call_session_id` equals the call identifier. -/
def matchesCall (d : CallDoc) (cid : Json) : Bool :=
  lookupField d "call_key" = some cid ∨ lookupField d "call_session_id" = some cid

/-- MongoDB `update_one`: rewrite the first matching document. -/
def updateFirstCall (store : List CallDoc) (cid : Json) (f : CallDoc → CallDoc) :
    List CallDoc :=
  match store with
  | [] => []
  | d :: rest =>
    if matchesCall d cid then f d :: rest
    else d :: updateFirstCall rest cid f

/-- One update operator entry built by the handler: a top-level `$set`
item, a dotted-path `$set` item into one of the nested objects, or the
`push_operations["conversation_log"] = {"$each": entries}` item of
line 388. -/
inductive CallOp where
  | setTop (k : String) (v : Json)
  | setNested (k sub : String) (v : Json)
  | pushLog (entries : List Json)
deriving DecidableEq

/-- Application of a single update operator to a document.  A dotted `$set`
creates the nested object when absent.  The `pushLog` case describes what a
`$push`/`$each` would do — but the handler never reaches it: a push item
makes the whole update document invalid (see `hasPushOp`), so
`applyCallOps` is only ever invoked on operator lists without one. -/
def applyCallOp (doc : CallDoc) : CallOp → CallDoc
  | .setTop k v => assocSet doc k v
  | .setNested k sub v =>
      assocSet doc k (.obj (assocSet (getObjFields doc k) sub v))
  | .pushLog entries =>
      let cur := match lookupField doc "conversation_log" with
        | some (.arr xs) => xs
        | _ => []
      assocSet doc "conversation_log" (.arr (cur ++ entries))

/-- Application of the whole update document, operator by operator. -/
def applyCallOps (doc : CallDoc) (ops : List CallOp) : CallDoc :=
  ops.foldl applyCallOp doc

/-- The meaningfulness test `value not in [None, "", []]` used by the merge
loop: rules out `None`, the empty string and the empty list (Python `==`
equates nothing else in a JSON payload with those three). -/
def meaningfulValue : Json → Bool
  | .null => false
  | .str s => !(s = "")
  | .arr items => !items.isEmpty
  | _ => true

/-- Stored conversation log of a call document,
`existing_call.get("conversation_log", [])`. -/
def storedConversationLog (d : CallDoc) : List Json :=
  match lookupField d "conversation_log" with
  | some (.arr xs) => xs
  | _ => []

/-- Python `entry.get("timestamp")` on a conversation-log entry; `null`
stands for Python `None` when the key is missing. -/
def entryTimestamp (e : Json) : Json := jget e "timestamp"

/-- Incoming conversation entries that survive the timestamp dedup: the
entries whose timestamp is not among the stored entries' timestamps. -/
def newLogEntries (existingLog incoming : List Json) : List Json :=
  incoming.filter (fun e =>
    !(entryTimestamp e ∈ existingLog.map entryTimestamp))

/-- Python `list(set(a).union(set(b)))`, modelled as an order-preserving
deduplicating union (the Python iteration order of a set is unspecified and
no theorem depends on it). -/
def listUnion (a b : List Json) : List Json :=
  (a ++ b).foldl (fun acc v => if v ∈ acc then acc else acc ++ [v]) []

/-- Update operators contributed by one `(key, value)` item of the cleaned
payload, mirroring the loop of lines 366-403: deep merge of the three
nested objects with a per-sub-field meaningfulness gate, timestamp-dedup
append of `conversation_log`, whole-array replace of `availability`,
set-union of `reason_codes`, and a meaningfulness-gated overwrite of every
other field. -/
def callUpdateOpsForField (existing : CallDoc) (key : String) (value : Json) :
    List CallOp :=
  if key = "contact" ∨ key = "service_address" ∨ key = "problem" then
    match value with
    | .obj nested =>
      if nested.isEmpty then []
      else nested.filterMap (fun kv =>
        if meaningfulValue kv.2 then some (.setNested key kv.1 kv.2) else none)
    | _ => []
  else if key = "conversation_log" then
    match value with
    | .arr entries =>
      if entries.isEmpty then []
      else
        let fresh := newLogEntries (storedConversationLog existing) entries
        if fresh.isEmpty then [] else [.pushLog fresh]
    | _ => []
  else if key = "availability" then
    match value with
    | .arr items => if items.isEmpty then [] else [.setTop key value]
    | _ => []
  else if key = "reason_codes" then
    match value with
    | .arr codes =>
      if codes.isEmpty then []
      else [.setTop key (.arr (listUnion (
        match lookupField existing "reason_codes" with
        | some (.arr cs) => cs
        | _ => []) codes))]
    | _ => []
  else
    if meaningfulValue value then [.setTop key value] else []

/-- The `is_final_update` test of lines 343-347. -/
def isFinalUpdate (cleaned : List (String × Json)) : Bool :=
  let callStatus := (lookupField cleaned "call_status").getD (.str "in_progress")
  let dcs := (lookupField cleaned "data_collection_status").getD (.str "in_progress")
  (callStatus = .str "completed" ∨ callStatus = .str "disconnected") ∨
    dcs = .str "complete" ∨
    jsonTruthy ((lookupField cleaned "call_completed").getD (.bool false))

/-- The `has_minimum_data` test of lines 410-420: the four required
sub-fields across the merged (existing union incoming) nested views. -/
def hasMinimumData (existing : CallDoc) (cleaned : List (String × Json)) : Bool :=
  let contact := mergeFields (getObjFields existing "contact") (getObjFields cleaned "contact")
  let address := mergeFields (getObjFields existing "service_address") (getObjFields cleaned "service_address")
  let problem := mergeFields (getObjFields existing "problem") (getObjFields cleaned "problem")
  jsonTruthy ((lookupField contact "name").getD .null) &&
    jsonTruthy ((lookupField contact "phone_e164").getD .null) &&
    jsonTruthy ((lookupField address "street").getD .null) &&
    jsonTruthy ((lookupField problem "summary").getD .null)

/-- Complete operator list of the existing-record update: the merge loop
over the cleaned payload, then for a final update the completion stamp and
the conditional qualification stamp (lines 405-424). -/
def buildCallOps (existing : CallDoc) (cleaned : List (String × Json))
    (final : Bool) (now : Nat) : List CallOp :=
  (cleaned.map (fun kv => callUpdateOpsForField existing kv.1 kv.2)).flatten ++
    (if final then
      [.setTop "call_completed" (.bool true),
       .setTop "final_updated_at" (.num now)] ++
      (if hasMinimumData existing cleaned then
        [.setTop "qualified" (.bool true),
         .setTop "lead_status" (.str "pending_approval")]
      else [])
    else [])

/-- The call identifier resolution of lines 317-322: prefer the raw
payload's `call_key` binding, else its `call_session_id` binding
(membership is tested on the payload before cleaning). -/
def resolveCallIdentifier (rdFields : List (String × Json)) : Option Json :=
  match lookupField rdFields "call_key" with
  | some v => some v
  | none => lookupField rdFields "call_session_id"

/-- The cleaned payload the handler works with (lines 328-336): clean the
request of `None`/empty values, stamp `updated_at`, and ensure `call_key`
is present. -/
def cleanedPayload (rdFields : List (String × Json)) (cid : Json) (now : Nat) :
    List (String × Json) :=
  let cleaned0 := cleanFields rdFields
  let cleaned1 := assocSet cleaned0 "updated_at" (.num now)
  if (lookupField cleaned1 "call_key").isSome then cleaned1
  else assocSet cleaned1 "call_key" cid

/-- The insert path of lines 449-477: a literal record of defaulted fields
followed by `**cleaned_data`, so every cleaned field overrides its
default. -/
def newCallRecord (cid : Json) (cleaned : List (String × Json)) (now : Nat) :
    CallDoc :=
  let cget := fun (k : String) (dflt : Json) => (lookupField cleaned k).getD dflt
  mergeFields [
    ("call_key", cid),
    ("created_at", .num now),
    ("tenant_id", cget "tenant_id" (.str "unknown")),
    ("vertical", cget "vertical" (.str "unknown")),
    ("lead_status", cget "lead_status" (.str "new")),
    ("qualified", cget "qualified" (.bool false)),
    ("reason_codes", cget "reason_codes" (.arr [])),
    ("contact", cget "contact" (.obj [])),
    ("service_address", cget "service_address" (.obj [])),
    ("problem", cget "problem" (.obj [])),
    ("availability", cget "availability" (.arr [])),
    ("consent_sms", cget "consent_sms" (.bool false)),
    ("opt_out", cget "opt_out" (.bool false)),
    ("call_completed", cget "call_completed" (.bool false)),
    ("data_collection_status", cget "data_collection_status" (.str "in_progress")),
    ("conversation_log", cget "conversation_log" (.arr [])),
    ("notes", cget "notes" (.str ""))] cleaned

/-- Response of the `/webhooks/pipecat/call` endpoint.  `serverError` is the
`InternalServerError` the generic exception handler (lines 498-500) raises
when `update_one` rejects the update document. -/
inductive CallResponse where
  | success (operation : String) (callIdentifier : Json) (isFinal : Bool)
      (dataCollectionStatus : Json)
  | badRequest
  | serverError
deriving DecidableEq

/-- Whether the built operator list carries a push item, i.e. whether
`push_operations` is non-empty.  Lines 427-431 then produce
`update_query = {"$set": {...}, "conversation_log": {"$each": [...]}}` —
`update_query.update(push_operations)` merges the push dict as a TOP-LEVEL
`conversation_log` key next to `$set`, not under `$push`.  That is an
invalid MongoDB update document (a modifier mixed with a plain field), so
`update_one` raises, the generic handler answers 500, and nothing at all is
persisted. -/
def hasPushOp (ops : List CallOp) : Bool :=
  ops.any (fun op => match op with | .pushLog _ => true | _ => false)

/-- Embedding of `handle_call_webhook`: resolve the identifier, clean the
payload, find the existing record by the `$or` filter; update it through
the merge-policy `$set` operators, or insert a defaulted new record.  A
missing or falsy identifier and a non-object or falsy body are client
errors with no persistence.  When the payload contributes fresh
conversation-log entries, the update document built at lines 427-431 is
invalid (see `hasPushOp`): `update_one` raises and the endpoint answers 500
with the store unchanged. -/
def handleCallWebhook (store : List CallDoc) (requestData : Option Json)
    (now : Nat) : CallResponse × List CallDoc :=
  match requestData with
  | none => (.badRequest, store)
  | some rd =>
    if !jsonTruthy rd then (.badRequest, store)
    else match rd with
    | .obj rdFields =>
      match resolveCallIdentifier rdFields with
      | none => (.badRequest, store)
      | some cid =>
        if !jsonTruthy cid then (.badRequest, store)
        else
          let cleaned := cleanedPayload rdFields cid now
          let dcs := (lookupField cleaned "data_collection_status").getD (.str "in_progress")
          let final := isFinalUpdate cleaned
          match store.find? (fun d => matchesCall d cid) with
          | some existing =>
            let ops := buildCallOps existing cleaned final now
            if hasPushOp ops then (.serverError, store)
            else if ops.isEmpty then
              (.success "no_change" cid final dcs, store)
            else
              let updated := applyCallOps existing ops
              let op := if updated = existing then "no_change" else "updated"
              (.success op cid final dcs,
                updateFirstCall store cid (fun d => applyCallOps d ops))
          | none =>
            (.success "created" cid final dcs,
              store ++ [newCallRecord cid cleaned now])
    | _ => (.badRequest, store)

/-!  Pipecat voice webhook (src/webhook/pipecat.py, `handle_voice_webhook`,
lines 180-287): every event is appended to the per-call `events` array plus
a last-status refresh, keyed by the `call_session_id`-over-`stream_id`
resolution.  -/

/-- The call-key resolution of lines 207-218: `call_session_id` (from the
`telnyx` object or `raw_start_frame.start`) is the primary durable key,
`stream_id` the fallback; `or` is Python truthiness-based. -/
def resolveVoiceCallKey (payload : Json) : Json :=
  let telnyxData := jgetD payload "telnyx" (.obj [])
  let startObj := jgetD (jgetD payload "raw_start_frame" (.obj [])) "start" (.obj [])
  let callSessionId := jor (jget telnyxData "call_session_id") (jget startObj "call_session_id")
  let streamId := jor (jget telnyxData "stream_id") (jget startObj "stream_id")
  jor callSessionId streamId

/-- The event entry pushed into the `events` array (lines 221-226). -/
def voiceEventDoc (payload : Json) (now : Nat) : Json :=
  .obj [
    ("ts", .num now),
    ("event_type", jgetD payload "event_type" (.str "unknown_event")),
    ("call_status", jgetD payload "call_status" (.str "unknown_status")),
    ("payload", payload)]

/-- MongoDB `$push` into the `events` array of a call document (creating
the array when absent). -/
def pushEvents (doc : CallDoc) (eventDoc : Json) : CallDoc :=
  let cur := match lookupField doc "events" with
    | some (.arr xs) => xs
    | _ => []
  assocSet doc "events" (.arr (cur ++ [eventDoc]))

/-- The `fields_to_merge` of the non-initiated branch (lines 257-260):
every payload item except `call_status`, `event_type`, `timestamp` and
`telnyx`. -/
def voiceMergeFields (payload : Json) : List (String × Json) :=
  match payload with
  | .obj fs => fs.filter (fun kv =>
      !(kv.1 = "call_status" ∨ kv.1 = "event_type" ∨ kv.1 = "timestamp" ∨
        kv.1 = "telnyx"))
  | _ => []

/-- MongoDB rejects an update document in which two operators address the
same path.  In the non-initiated branch the `$set` of `fields_to_merge`
conflicts with `$setOnInsert` (`call_key`, `created_at`) or `$push`
(`events`) exactly when the payload carries one of those three keys; the
driver then raises and the handler answers 500 with nothing persisted. -/
def voiceUpdateConflict (payload : Json) : Bool :=
  jgetD payload "call_status" (.str "unknown_status") ≠ .str "initiated" ∧
    (voiceMergeFields payload).any (fun kv =>
      kv.1 = "call_key" ∨ kv.1 = "created_at" ∨ kv.1 = "events")

/-- The whole update document of the voice endpoint applied to one call
document: push the event entry, refresh `last_status` / `last_event_type` /
`updated_at`, then either the initiated-call seeding (`from`, `to`,
`telnyx_metadata`, `initial_payload`) or the merge of all remaining payload
fields (lines 228-261). -/
def voiceMutate (doc : CallDoc) (payload : Json) (now : Nat) : CallDoc :=
  let eventType := jgetD payload "event_type" (.str "unknown_event")
  let callStatus := jgetD payload "call_status" (.str "unknown_status")
  let d1 := pushEvents doc (voiceEventDoc payload now)
  let d2 := assocSet (assocSet (assocSet d1
    "last_status" callStatus) "last_event_type" eventType) "updated_at" (.num now)
  if callStatus = .str "initiated" then
    assocSet (assocSet (assocSet (assocSet d2
      "from" (jget payload "from"))
      "to" (jget payload "to"))
      "telnyx_metadata" (jgetD payload "telnyx" (.obj [])))
      "initial_payload" (jget payload "raw_start_frame")
  else
    (voiceMergeFields payload).foldl (fun acc kv => assocSet acc kv.1 kv.2) d2

/-- The voice endpoint filters on `call_key` alone. -/
def matchesVoiceKey (d : CallDoc) (k : Json) : Bool :=
  lookupField d "call_key" = some k

/-- MongoDB `find_one_and_update` document rewrite for the voice filter. -/
def updateFirstVoice (store : List CallDoc) (k : Json) (f : CallDoc → CallDoc) :
    List CallDoc :=
  match store with
  | [] => []
  | d :: rest =>
    if matchesVoiceKey d k then f d :: rest
    else d :: updateFirstVoice rest k f

/-- Response of the `/webhooks/pipecat/voice` endpoint. -/
inductive VoiceResponse where
  | ok (callKey lastStatus : Json)
  | badRequest
  | serverError
deriving DecidableEq

/-- Embedding of `handle_voice_webhook`: resolve the key (400 when neither
identifier is present), then upsert by `call_key`: push the event entry and
refresh the status fields on the single matching document, inserting a
fresh one seeded by `$setOnInsert` when none exists.  The response carries
the updated document's `call_key` and `last_status`
(`ReturnDocument.AFTER`). -/
def handleVoiceWebhook (store : List CallDoc) (payload : Json) (now : Nat) :
    VoiceResponse × List CallDoc :=
  if !jsonTruthy payload then (.badRequest, store)
  else match payload with
  | .obj _ =>
    let callKey := resolveVoiceCallKey payload
    if !jsonTruthy callKey then (.badRequest, store)
    else if voiceUpdateConflict payload then (.serverError, store)
    else
      match store.find? (fun d => matchesVoiceKey d callKey) with
      | some existing =>
        let updated := voiceMutate existing payload now
        (.ok ((lookupField updated "call_key").getD .null)
             ((lookupField updated "last_status").getD .null),
         updateFirstVoice store callKey (fun d => voiceMutate d payload now))
      | none =>
        let inserted := voiceMutate [("call_key", callKey), ("created_at", .num now)]
          payload now
        (.ok ((lookupField inserted "call_key").getD .null)
             ((lookupField inserted "last_status").getD .null),
         store ++ [inserted])
  | _ => (.serverError, store)

/-!  Tool-call webhooks (src/webhook/tools_webhook.py).  -/

/-- Result of the qualification scoring of `handle_qualification_tool`. -/
structure QualificationOutcome where
  score : Nat
  status : String
  reasons : List String
deriving DecidableEq

/-- Accumulator-style scoring exactly as the handler computes it (lines
271-315), parameterised on the eight condition outcomes in source order:
contact name, phone, street-and-zip, in-service-area, problem summary,
category, urgency, availability. -/
def qualOutcomeOfFlags (hasName hasPhone hasStreetZip inArea hasSummary
    hasCategory isUrgent hasAvailability : Bool) : QualificationOutcome :=
  let score0 : Nat := 0
  let score1 := if hasName then score0 + 10 else score0
  let score2 := if hasPhone then score1 + 20 else score1
  let reasons1 := if hasPhone then ([] : List String) else ["missing_phone"]
  let score3 := if hasStreetZip then score2 + 15 else score2
  let score4 := if inArea then score3 + 10 else score3
  let reasons2 := if inArea then reasons1 else reasons1 ++ ["out_of_service_area"]
  let score5 := if hasSummary then score4 + 15 else score4
  let score6 := if hasCategory then score5 + 10 else score5
  let score7 := if isUrgent then score6 + 10 else score6
  let score8 := if hasAvailability then score7 + 10 else score7
  if score8 ≥ 70 then ⟨score8, "qualified", reasons2⟩
  else if score8 ≥ 50 then ⟨score8, "needs_review", reasons2 ++ ["low_score"]⟩
  else ⟨score8, "disqualified", reasons2 ++ ["insufficient_information"]⟩

/-- Embedding of the qualification scoring of `handle_qualification_tool`
as a function of `customer_data`: the eight condition checks are read off
the payload exactly as the source does. -/
def qualifyLead (customer_data : Json) : QualificationOutcome :=
  let contact := jgetD customer_data "contact" (.obj [])
  let address := jgetD customer_data "service_address" (.obj [])
  let problem := jgetD customer_data "problem" (.obj [])
  qualOutcomeOfFlags
    (jsonTruthy (jget contact "name"))
    (jsonTruthy (jget contact "phone_e164"))
    (jsonTruthy (jget address "street") && jsonTruthy (jget address "zip"))
    (jsonTruthy (jget address "in_service_area"))
    (jsonTruthy (jget problem "summary"))
    (jsonTruthy (jget problem "category"))
    (jget problem "urgency" = .str "emergency" ∨ jget problem "urgency" = .str "urgent")
    (jsonTruthy (jget customer_data "availability"))

/-- Reference scoring written from the specification text, parameterised on
the eight condition outcomes: a sum of point indicators, flags for missing
phone and out-of-service-area, and the 70/50 threshold classification. -/
def qualSpecOfFlags (hasName hasPhone hasStreetZip inArea hasSummary
    hasCategory isUrgent hasAvailability : Bool) : QualificationOutcome :=
  let total : Nat :=
    (if hasName then 10 else 0) + (if hasPhone then 20 else 0) +
    (if hasStreetZip then 15 else 0) + (if inArea then 10 else 0) +
    (if hasSummary then 15 else 0) + (if hasCategory then 10 else 0) +
    (if isUrgent then 10 else 0) + (if hasAvailability then 10 else 0)
  let flags := (if hasPhone then [] else ["missing_phone"]) ++
    (if inArea then [] else ["out_of_service_area"])
  if total ≥ 70 then ⟨total, "qualified", flags⟩
  else if total ≥ 50 then ⟨total, "needs_review", flags ++ ["low_score"]⟩
  else ⟨total, "disqualified", flags ++ ["insufficient_information"]⟩

/-- Reference scoring written from the specification text as a function of
`customer_data`, reading the same eight conditions off the payload. -/
def qualifyLeadSpec (customer_data : Json) : QualificationOutcome :=
  let contact := jgetD customer_data "contact" (.obj [])
  let address := jgetD customer_data "service_address" (.obj [])
  let problem := jgetD customer_data "problem" (.obj [])
  qualSpecOfFlags
    (jsonTruthy (jget contact "name"))
    (jsonTruthy (jget contact "phone_e164"))
    (jsonTruthy (jget address "street") && jsonTruthy (jget address "zip"))
    (jsonTruthy (jget address "in_service_area"))
    (jsonTruthy (jget problem "summary"))
    (jsonTruthy (jget problem "category"))
    (jget problem "urgency" = .str "emergency" ∨ jget problem "urgency" = .str "urgent")
    (jsonTruthy (jget customer_data "availability"))

/-- Appointment side-effect record of `handle_appointment_tool`
(lines 119-134). -/
structure AppointmentRecord where
  appointment_id : String
  tenant_id : Json
  call_session_id : Json
  customer_name : Json
  customer_phone : Json
  service_address : Json
  appointment_date : Json
  appointment_time : Json
  problem_description : Json
  urgency : Json
  status : String
  source : String
  created_at : Nat
  updated_at : Nat
deriving DecidableEq

/-- The generated id `f"apt_{now:%Y%m%d_%H%M%S}_{tenant_id[:8]}"`; the
timestamp rendering is abstracted to the decimal clock value. -/
def genAppointmentId (now : Nat) (tenantId : String) : String :=
  "apt_" ++ toString now ++ "_" ++ tenantId.take 8

/-- Service-ticket side-effect record of `handle_service_ticket_tool`
(lines 496-512). -/
structure TicketRecord where
  ticket_id : String
  tenant_id : Json
  call_session_id : Json
  customer_info : Json
  service_address : Json
  problem_description : Json
  problem_category : Json
  urgency : Json
  property_type : Json
  source : String
  status : String
  priority : String
  created_at : Nat
  updated_at : Nat
deriving DecidableEq

/-- The generated id
`f"TKT-{date}-{tenant_id[:4].upper()}-{time}"`, timestamp rendering again
abstracted to the decimal clock value. -/
def genTicketId (now : Nat) (tenantId : String) : String :=
  "TKT-" ++ toString now ++ "-" ++ (tenantId.take 4).toUpper ++ "-" ++ toString now

/-- Collections touched by the tool-call handlers. -/
structure ToolsState where
  appointments : List AppointmentRecord
  tickets : List TicketRecord
  calls : List CallDoc
deriving DecidableEq

/-- Response of a tool-call endpoint. -/
inductive ToolResponse where
  | ok (generatedId : String) (status : String)
  | badRequest
  | serverError
deriving DecidableEq

/-- Back-patch of the parent call record by the appointment tool (lines
143-147): stamp `appointment_id` and `appointment_scheduled` on the call
whose `call_key` equals the session id. -/
def backpatchAppointment (calls : List CallDoc) (callSessionId : Json)
    (apptId : String) : List CallDoc :=
  match calls with
  | [] => []
  | d :: rest =>
    if lookupField d "call_key" = some callSessionId then
      assocSet (assocSet d "appointment_id" (.str apptId))
        "appointment_scheduled" (.bool true) :: rest
    else d :: backpatchAppointment rest callSessionId apptId

/-- Embedding of `handle_appointment_tool` (lines 90-160).  `backpatchFails`
abstracts a database error raised by the back-patch `update_one`; the
insert has already been committed at that point, and the handler's generic
exception handler turns the error into a 500 response — there is no inner
try/except around the back-patch. -/
def handleAppointmentTool (payload : Json) (backpatchFails : Bool) (now : Nat)
    (st : ToolsState) : ToolResponse × ToolsState :=
  if !jsonTruthy payload then (.badRequest, st)
  else
    let tenant_id := jget payload "tenant_id"
    let call_session_id := jget payload "call_session_id"
    let customer_info := jgetD payload "customer_info" (.obj [])
    let appointment_data := jgetD payload "appointment" (.obj [])
    if !(jsonTruthy tenant_id && jsonTruthy call_session_id &&
         jsonTruthy customer_info && jsonTruthy appointment_data) then
      (.badRequest, st)
    else match tenant_id with
    | .str tid =>
      let apptId := genAppointmentId now tid
      let record : AppointmentRecord := {
        appointment_id := apptId,
        tenant_id := tenant_id,
        call_session_id := call_session_id,
        customer_name := jget customer_info "name",
        customer_phone := jget customer_info "phone",
        service_address := jget customer_info "service_address",
        appointment_date := jget appointment_data "date",
        appointment_time := jget appointment_data "time",
        problem_description := jget appointment_data "problem",
        urgency := jgetD appointment_data "urgency" (.str "normal"),
        status := "confirmed",
        source := "ai_voice_call",
        created_at := now,
        updated_at := now }
      let st1 := { st with appointments := st.appointments ++ [record] }
      if backpatchFails then (.serverError, st1)
      else
        (.ok apptId "confirmed",
         { st1 with calls := backpatchAppointment st1.calls call_session_id apptId })
    | _ => (.serverError, st)

/-- Back-patch of the parent call record by the ticket tool (lines
517-522): stamp `service_ticket_id` and `ticket_created`. -/
def backpatchTicket (calls : List CallDoc) (callSessionId : Json)
    (ticketId : String) : List CallDoc :=
  match calls with
  | [] => []
  | d :: rest =>
    if lookupField d "call_key" = some callSessionId then
      assocSet (assocSet d "service_ticket_id" (.str ticketId))
        "ticket_created" (.bool true) :: rest
    else d :: backpatchTicket rest callSessionId ticketId

/-- Embedding of `handle_service_ticket_tool` (lines 465-537), with the
same treatment of a failing back-patch as `handleAppointmentTool`. -/
def handleServiceTicketTool (payload : Json) (backpatchFails : Bool) (now : Nat)
    (st : ToolsState) : ToolResponse × ToolsState :=
  if !jsonTruthy payload then (.badRequest, st)
  else
    let customer_data := jgetD payload "customer_data" (.obj [])
    let problem_details := jgetD payload "problem_details" (.obj [])
    let tenant_id := jget payload "tenant_id"
    let call_session_id := jget payload "call_session_id"
    if !(jsonTruthy customer_data && jsonTruthy problem_details &&
         jsonTruthy tenant_id && jsonTruthy call_session_id) then
      (.badRequest, st)
    else match tenant_id with
    | .str tid =>
      let ticketId := genTicketId now tid
      let priority :=
        if jget problem_details "urgency" = .str "emergency" then "high" else "normal"
      let record : TicketRecord := {
        ticket_id := ticketId,
        tenant_id := tenant_id,
        call_session_id := call_session_id,
        customer_info := jgetD customer_data "contact" (.obj []),
        service_address := jgetD customer_data "service_address" (.obj []),
        problem_description := jgetD problem_details "summary" (.str ""),
        problem_category := jgetD problem_details "category" (.str "other electrical"),
        urgency := jgetD problem_details "urgency" (.str "normal"),
        property_type := jgetD problem_details "property_type" (.str "residential"),
        source := "ai_voice_call",
        status := "open",
        priority := priority,
        created_at := now,
        updated_at := now }
      let st1 := { st with tickets := st.tickets ++ [record] }
      if backpatchFails then (.serverError, st1)
      else
        (.ok ticketId "created",
         { st1 with calls := backpatchTicket st1.calls call_session_id ticketId })
    | _ => (.serverError, st)

/-!  Generic lemmas about the association-list primitives.  -/

theorem lookup_assocSet_self (fs : List (String × Json)) (k : String) (v : Json) :
    lookupField (assocSet fs k v) k = some v := by
  induction fs with
  | nil => simp [assocSet, lookupField]
  | cons hd tl ih =>
    obtain ⟨k0, v0⟩ := hd
    by_cases h : k0 = k
    · simp [assocSet, h, lookupField]
    · simp [assocSet, h, lookupField, ih]

theorem lookup_assocSet_ne (fs : List (String × Json)) (k k' : String) (v : Json)
    (h : k' ≠ k) : lookupField (assocSet fs k v) k' = lookupField fs k' := by
  induction fs with
  | nil =>
    simp only [assocSet, lookupField]
    rw [if_neg (fun hh => h hh.symm)]
  | cons hd tl ih =>
    obtain ⟨k0, v0⟩ := hd
    by_cases h0 : k0 = k
    · subst h0
      simp only [assocSet, if_pos rfl, lookupField]
      rw [if_neg (fun hh => h hh.symm), if_neg (fun hh => h hh.symm)]
    · simp only [assocSet, if_neg h0, lookupField]
      by_cases h1 : k0 = k'
      · rw [if_pos h1, if_pos h1]
      · rw [if_neg h1, if_neg h1, ih]

theorem mem_assocSet_ne (fs : List (String × Json)) (k k' : String) (v v' : Json)
    (hmem : (k', v') ∈ assocSet fs k v) (hne : k' ≠ k) : (k', v') ∈ fs := by
  induction fs with
  | nil =>
    simp [assocSet] at hmem
    exact absurd hmem.1 hne
  | cons hd tl ih =>
    obtain ⟨k0, v0⟩ := hd
    by_cases h0 : k0 = k
    · simp only [assocSet, if_pos h0] at hmem
      rcases List.mem_cons.mp hmem with h | h
      · exact absurd (by injection h with h1 _; exact h1.symm ▸ h0) hne
      · exact List.mem_cons_of_mem _ h
    · simp only [assocSet, if_neg h0] at hmem
      rcases List.mem_cons.mp hmem with h | h
      · exact h ▸ List.mem_cons_self _ _
      · exact List.mem_cons_of_mem _ (ih h)

theorem lookup_foldl_assocSet_ne (ms : List (String × Json)) (d : List (String × Json))
    (key : String) (h : ∀ kv ∈ ms, kv.1 ≠ key) :
    lookupField (ms.foldl (fun acc kv => assocSet acc kv.1 kv.2) d) key
      = lookupField d key := by
  induction ms generalizing d with
  | nil => rfl
  | cons hd tl ih =>
    simp only [List.foldl_cons]
    rw [ih (assocSet d hd.1 hd.2) (fun kv hkv => h kv (List.mem_cons_of_mem _ hkv))]
    exact lookup_assocSet_ne d hd.1 key hd.2
      (fun hh => (h hd (List.mem_cons_self _ _)) hh.symm)

/-!  C7: qualification scoring.  -/

/-- Fully populated qualification input of the testable property. -/
def qualFullInput : Json := .obj [
  ("contact", .obj [("name", .str "Ann Lee"), ("phone_e164", .str "+15551230000")]),
  ("service_address", .obj [
    ("street", .str "1 Main St"), ("zip", .str "78701"), ("in_service_area", .bool true)]),
  ("problem", .obj [
    ("summary", .str "sparks from outlet"), ("category", .str "outlet"),
    ("urgency", .str "emergency")]),
  ("availability", .arr [.str "monday 10am"])]

/-- The same input with `phone_e164` removed. -/
def qualNoPhoneInput : Json := .obj [
  ("contact", .obj [("name", .str "Ann Lee")]),
  ("service_address", .obj [
    ("street", .str "1 Main St"), ("zip", .str "78701"), ("in_service_area", .bool true)]),
  ("problem", .obj [
    ("summary", .str "sparks from outlet"), ("category", .str "outlet"),
    ("urgency", .str "emergency")]),
  ("availability", .arr [.str "monday 10am"])]

/-- C7: the qualification scoring of `/webhooks/tools/qualification` is a
pure deterministic function of `customer_data` equal to the reference
point-sum with the 70/50 thresholds and the `missing_phone` /
`out_of_service_area` / `low_score` / `insufficient_information` flags; on
a fully populated input, removing `phone_e164` lowers the score by exactly
20 and adds `missing_phone` to the reasons. -/
theorem C7_qualification_scoring_deterministic :
    (∀ cd, qualifyLead cd = qualifyLeadSpec cd) ∧
    (qualifyLead qualFullInput).status = "qualified" ∧
    (qualifyLead qualFullInput).score ≥ 70 ∧
    (qualifyLead qualFullInput).score = (qualifyLead qualNoPhoneInput).score + 20 ∧
    "missing_phone" ∈ (qualifyLead qualNoPhoneInput).reasons ∧
    "missing_phone" ∉ (qualifyLead qualFullInput).reasons := by
  have h : ∀ b1 b2 b3 b4 b5 b6 b7 b8,
      qualOutcomeOfFlags b1 b2 b3 b4 b5 b6 b7 b8
        = qualSpecOfFlags b1 b2 b3 b4 b5 b6 b7 b8 := by decide
  refine ⟨fun cd => h _ _ _ _ _ _ _ _, by decide, by decide, by decide, by decide, by decide⟩

/-!  C3: signature rejection.  -/

/-- C3: an SMS webhook request whose signature does not verify is answered
401 with neither collection touched; a failing Ed25519 check (for example a
tampered signature byte) makes `_verify_v2_signature` return `false`
without raising; with neither secret configured both verifiers fail
closed; and the HMAC fallback is reached only when the Ed25519 attempt was
absent or failed. -/
theorem C3_signature_rejection (cfg : TelnyxConfig)
    (edVerify : String → String → String → String → EdOutcome)
    (hmacSha256Hex : String → String → String)
    (hdrs : SmsHeaders) (rawBody : String) (event : Json) (now : Nat)
    (st : SmsState) :
    ((smsVerify cfg edVerify hmacSha256Hex hdrs rawBody).1 = false →
      telnyxSmsWebhook cfg edVerify hmacSha256Hex hdrs rawBody (some event) now st
        = (.unauthorized, st)) ∧
    (cfg.publicKey = "" → cfg.webhookSecret = "" →
      (smsVerify cfg edVerify hmacSha256Hex hdrs rawBody).1 = false) ∧
    (∀ ts body sig, edVerify ts body sig cfg.publicKey = .failure →
      verifyV2Signature cfg edVerify ts body sig = false) ∧
    ((smsVerify cfg edVerify hmacSha256Hex hdrs rawBody).2 = "hmac-sha256" →
      ((hdrTruthy hdrs.v2Signature && hdrTruthy hdrs.v2Timestamp) = false ∨
        verifyV2Signature cfg edVerify (hdrs.v2Timestamp.getD "") rawBody
          (hdrs.v2Signature.getD "") = false)) := by
  refine ⟨?_, ?_, ?_, ?_⟩
  · intro h
    simp [telnyxSmsWebhook, h]
  · intro h1 h2
    simp only [smsVerify, verifyV2Signature, verifyV1Signature, h1, h2]
    split <;> simp
  · intro ts body sig h
    simp only [verifyV2Signature, h]
    split <;> simp
  · intro h
    by_cases hv2 : (if hdrTruthy hdrs.v2Signature && hdrTruthy hdrs.v2Timestamp then
        verifyV2Signature cfg edVerify (hdrs.v2Timestamp.getD "") rawBody
          (hdrs.v2Signature.getD "") else false) = true
    · exfalso
      simp only [smsVerify, hv2] at h
      simp at h
    · by_cases hc : (hdrTruthy hdrs.v2Signature && hdrTruthy hdrs.v2Timestamp) = true
      · right
        simpa [hc] using hv2
      · left
        simpa using hc

/-- Witness for C3 at a concrete unverified request: empty configuration,
no usable headers, concrete body and state. -/
theorem C3_signature_rejection_witness :
    telnyxSmsWebhook ⟨true, "", ""⟩ (fun _ _ _ _ => .failure) (fun _ _ => "d")
      ⟨some "sig", some "ts", some "v1sig"⟩ "body" (some (.obj [("data", .obj [])])) 3
      ⟨[], []⟩ = (.unauthorized, ⟨[], []⟩) := by
  have h := C3_signature_rejection ⟨true, "", ""⟩ (fun _ _ _ _ => .failure)
    (fun _ _ => "d") ⟨some "sig", some "ts", some "v1sig"⟩ "body"
    (.obj [("data", .obj [])]) 3 ⟨[], []⟩
  exact h.1 (h.2.1 rfl rfl)

/-!  C8: tool-call back-patch failures.  -/

/-- Concrete appointment tool payload used to exercise the back-patch
failure path. -/
def c8AppointmentPayload : Json := .obj [
  ("tenant_id", .str "tenant01"),
  ("call_session_id", .str "cs1"),
  ("customer_info", .obj [("name", .str "Bob"), ("phone", .str "+15550001111")]),
  ("appointment", .obj [("date", .str "2026-01-01"), ("time", .str "10:00 AM")])]

/-- C8 counterexample: with the side-effect record already inserted, a
failing back-patch of the parent call record does NOT yield a success
response carrying the generated id — the handler's generic exception
handler answers 500.  The inserted appointment record is persisted all the
same. -/
theorem C8_counterexample :
    (handleAppointmentTool c8AppointmentPayload true 7 ⟨[], [], []⟩).1 = .serverError ∧
    (∀ gid s, (handleAppointmentTool c8AppointmentPayload true 7 ⟨[], [], []⟩).1 ≠ .ok gid s) ∧
    ((handleAppointmentTool c8AppointmentPayload true 7 ⟨[], [], []⟩).2.appointments.map
      (fun r => r.appointment_id)) = [genAppointmentId 7 "tenant01"] := by
  refine ⟨by decide, ?_, by decide⟩
  intro gid s h
  have h0 : (handleAppointmentTool c8AppointmentPayload true 7 ⟨[], [], []⟩).1 = .serverError := by decide
  rw [h0] at h
  exact ToolResponse.noConfusion h

/-- C8 amended: when the back-patch raises after a successful insert, the
appointment and ticket handlers return a 500 server error (the failure is
not swallowed), while the inserted side-effect record remains persisted and
the parent call record is untouched. -/
theorem C8_backpatch_failure_returns_500 (payload payload2 : Json)
    (st st2 : ToolsState) (now : Nat) (tid tid2 : String) :
    (jsonTruthy payload = true →
     jget payload "tenant_id" = .str tid →
     tid ≠ "" →
     jsonTruthy (jget payload "call_session_id") = true →
     jsonTruthy (jgetD payload "customer_info" (.obj [])) = true →
     jsonTruthy (jgetD payload "appointment" (.obj [])) = true →
      (handleAppointmentTool payload true now st).1 = .serverError ∧
      (handleAppointmentTool payload true now st).2.calls = st.calls ∧
      ∃ r, (handleAppointmentTool payload true now st).2.appointments
            = st.appointments ++ [r] ∧
           r.appointment_id = genAppointmentId now tid) ∧
    (jsonTruthy payload2 = true →
     jget payload2 "tenant_id" = .str tid2 →
     tid2 ≠ "" →
     jsonTruthy (jget payload2 "call_session_id") = true →
     jsonTruthy (jgetD payload2 "customer_data" (.obj [])) = true →
     jsonTruthy (jgetD payload2 "problem_details" (.obj [])) = true →
      (handleServiceTicketTool payload2 true now st2).1 = .serverError ∧
      (handleServiceTicketTool payload2 true now st2).2.calls = st2.calls ∧
      ∃ r, (handleServiceTicketTool payload2 true now st2).2.tickets
            = st2.tickets ++ [r] ∧
           r.ticket_id = genTicketId now tid2) := by
  constructor
  · intro hp htid htid0 hcs hci had
    have hstr : jsonTruthy (Json.str tid) = true := by simp [jsonTruthy, htid0]
    have htruthy : jsonTruthy (jget payload "tenant_id") = true := by rw [htid]; exact hstr
    simp only [handleAppointmentTool, hp, htruthy, hcs, hci, had, htid, hstr]
    simp
  · intro hp htid htid0 hcs hcd hpd
    have hstr : jsonTruthy (Json.str tid2) = true := by simp [jsonTruthy, htid0]
    have htruthy : jsonTruthy (jget payload2 "tenant_id") = true := by rw [htid]; exact hstr
    simp only [handleServiceTicketTool, hp, htruthy, hcs, hcd, hpd, htid, hstr]
    simp

/-- Concrete service-ticket tool payload used to exercise the back-patch
failure path. -/
def c8TicketPayload : Json := .obj [
  ("tenant_id", .str "tenant02"),
  ("call_session_id", .str "cs2"),
  ("customer_data", .obj [("contact", .obj [("name", .str "Ann")])]),
  ("problem_details", .obj [("summary", .str "no power"), ("urgency", .str "emergency")])]

/-- Witness for the amended C8 at concrete inputs for both handlers. -/
theorem C8_backpatch_failure_returns_500_witness :
    (handleAppointmentTool c8AppointmentPayload true 7 ⟨[], [], []⟩).1 = .serverError ∧
    (handleServiceTicketTool c8TicketPayload true 7 ⟨[], [], []⟩).1 = .serverError := by
  have h := C8_backpatch_failure_returns_500 c8AppointmentPayload c8TicketPayload
    ⟨[], [], []⟩ ⟨[], [], []⟩ 7 "tenant01" "tenant02"
  exact ⟨(h.1 (by decide) (by decide) (by decide) (by decide) (by decide) (by decide)).1,
         (h.2 (by decide) (by decide) (by decide) (by decide) (by decide) (by decide)).1⟩

/-!  C6: voice call-key resolution precedence.  -/

/-- C6: on the voice endpoint a payload carrying both a `call_session_id`
and a `stream_id` (here in the `telnyx` object) resolves the call key to
the `call_session_id`; with no `call_session_id` anywhere and only a
`stream_id`, the stream id is the key; and when the resolution comes up
falsy the endpoint answers a 400 client error with nothing persisted. -/
theorem C6_call_key_resolution (fs tfs : List (String × Json)) (A B : String)
    (store : List CallDoc) (now : Nat) :
    (lookupField fs "telnyx" = some (.obj tfs) →
     lookupField tfs "call_session_id" = some (.str A) → A ≠ "" →
      resolveVoiceCallKey (.obj fs) = .str A) ∧
    (lookupField fs "telnyx" = some (.obj tfs) →
     jsonTruthy (jget (.obj tfs) "call_session_id") = false →
     jsonTruthy (jget (jgetD (jgetD (.obj fs) "raw_start_frame" (.obj []))
       "start" (.obj [])) "call_session_id") = false →
     lookupField tfs "stream_id" = some (.str B) → B ≠ "" →
      resolveVoiceCallKey (.obj fs) = .str B) ∧
    (jsonTruthy (resolveVoiceCallKey (.obj fs)) = false → fs ≠ [] →
      handleVoiceWebhook store (.obj fs) now = (.badRequest, store)) := by
  have jor_of_truthy : ∀ a b : Json, jsonTruthy a = true → jor a b = a := by
    intro a b h; simp [jor, h]
  have jor_of_falsy : ∀ a b : Json, jsonTruthy a = false → jor a b = b := by
    intro a b h; simp [jor, h]
  refine ⟨?_, ?_, ?_⟩
  · intro htel hcsi hA
    have htd : jgetD (Json.obj fs) "telnyx" (Json.obj []) = Json.obj tfs := by
      simp [jgetD, htel]
    have htc : jget (Json.obj tfs) "call_session_id" = Json.str A := by
      simp [jget, hcsi]
    simp only [resolveVoiceCallKey, htd, htc]
    rw [jor_of_truthy (Json.str A) _ (by simp [jsonTruthy, hA])]
    rw [jor_of_truthy (Json.str A) _ (by simp [jsonTruthy, hA])]
  · intro htel hcsi hstart hsid hB
    have htd : jgetD (Json.obj fs) "telnyx" (Json.obj []) = Json.obj tfs := by
      simp [jgetD, htel]
    have hts : jget (Json.obj tfs) "stream_id" = Json.str B := by
      simp [jget, hsid]
    simp only [resolveVoiceCallKey, htd, hts]
    rw [jor_of_falsy _ _ hcsi, jor_of_falsy _ _ hstart,
        jor_of_truthy (Json.str B) _ (by simp [jsonTruthy, hB])]
  · intro hkey hne
    have hbody : jsonTruthy (Json.obj fs) = true := by
      simp [jsonTruthy, List.isEmpty_iff, hne]
    simp [handleVoiceWebhook, hbody, hkey]

/-- Witness for C6: concrete payloads for each of the three behaviours. -/
theorem C6_call_key_resolution_witness :
    resolveVoiceCallKey (.obj [("telnyx", .obj [
      ("call_session_id", .str "A"), ("stream_id", .str "B")])]) = .str "A" ∧
    resolveVoiceCallKey (.obj [("telnyx", .obj [("stream_id", .str "B")])]) = .str "B" ∧
    handleVoiceWebhook [] (.obj [("event_type", .str "x")]) 3 = (.badRequest, []) := by
  refine ⟨?_, ?_, ?_⟩
  · exact (C6_call_key_resolution [("telnyx", .obj [("call_session_id", .str "A"),
      ("stream_id", .str "B")])] [("call_session_id", .str "A"), ("stream_id", .str "B")]
      "A" "B" [] 3).1 (by decide) (by decide) (by decide)
  · exact (C6_call_key_resolution [("telnyx", .obj [("stream_id", .str "B")])]
      [("stream_id", .str "B")] "A" "B" [] 3).2.1 (by decide) (by decide) (by decide)
      (by decide) (by decide)
  · exact (C6_call_key_resolution [("event_type", .str "x")] [] "A" "B" [] 3).2.2
      (by decide) (by decide)

/-!  C1: idempotent event upsert.  -/

theorem upsertWebhookEvent_not_found (store : List WebhookEventDoc)
    (eid etype occ raw : Json) (method : String) (now : Nat)
    (h : ∀ d ∈ store, d.event_id ≠ eid) :
    upsertWebhookEvent store eid etype occ raw method now
      = store ++ [{ event_id := eid, first_seen_at := now, event_type := etype,
                    occurred_at := occ, raw_event := raw, last_seen_at := now,
                    verification_method := method }] := by
  induction store with
  | nil => rfl
  | cons d rest ih =>
    simp only [upsertWebhookEvent, if_neg (h d (List.mem_cons_self _ _)),
      List.cons_append]
    rw [ih (fun x hx => h x (List.mem_cons_of_mem _ hx))]

theorem upsertWebhookEvent_found_last (store : List WebhookEventDoc)
    (d0 : WebhookEventDoc) (eid etype occ raw : Json) (method : String) (now : Nat)
    (h : ∀ d ∈ store, d.event_id ≠ eid) (h0 : d0.event_id = eid) :
    upsertWebhookEvent (store ++ [d0]) eid etype occ raw method now
      = store ++ [({ d0 with event_type := etype, occurred_at := occ, raw_event := raw, last_seen_at := now, verification_method := method } : WebhookEventDoc)] := by
  induction store with
  | nil => simp [upsertWebhookEvent, h0]
  | cons d rest ih =>
    simp only [List.cons_append, upsertWebhookEvent,
      if_neg (h d (List.mem_cons_self _ _)), List.append_eq]
    rw [ih (fun x hx => h x (List.mem_cons_of_mem _ hx))]

theorem telnyxSmsWebhook_events_eq (cfg : TelnyxConfig)
    (edVerify : String → String → String → String → EdOutcome)
    (hmacSha256Hex : String → String → String)
    (hdrs : SmsHeaders) (rawBody : String) (event : Json) (now : Nat)
    (st : SmsState)
    (hver : (smsVerify cfg edVerify hmacSha256Hex hdrs rawBody).1 = true)
    (heid : jsonTruthy (normalizeEvent event now).event_id = true) :
    (telnyxSmsWebhook cfg edVerify hmacSha256Hex hdrs rawBody (some event) now st).2.events
      = upsertWebhookEvent st.events (normalizeEvent event now).event_id
          (normalizeEvent event now).event_type (normalizeEvent event now).occurred_at
          (normalizeEvent event now).raw_event
          (smsVerify cfg edVerify hmacSha256Hex hdrs rawBody).2 now := by
  simp only [telnyxSmsWebhook, hver, heid, Bool.not_true, Bool.false_eq_true,
    if_false, if_true]
  split <;> rfl

/-- C1: two SMS webhook deliveries of the identical event payload leave
exactly one document for its `event_id` in `telnyx_webhook_events`; the
second delivery advances `last_seen_at` to its own processing time while
`first_seen_at` keeps the first delivery's time, and the remaining mutable
fields (`event_type`, `occurred_at`, `raw_event`, `verification_method`)
equal those a single delivery would have stored. -/
theorem C1_event_upsert_idempotent (cfg : TelnyxConfig)
    (edVerify : String → String → String → String → EdOutcome)
    (hmacSha256Hex : String → String → String)
    (hdrs : SmsHeaders) (rawBody : String) (event : Json) (t1 t2 : Nat)
    (st0 : SmsState)
    (hver : (smsVerify cfg edVerify hmacSha256Hex hdrs rawBody).1 = true)
    (heid : jsonTruthy (normalizeEvent event t1).event_id = true)
    (hfresh : ∀ d ∈ st0.events, d.event_id ≠ (normalizeEvent event t1).event_id) :
    (telnyxSmsWebhook cfg edVerify hmacSha256Hex hdrs rawBody (some event) t2
        (telnyxSmsWebhook cfg edVerify hmacSha256Hex hdrs rawBody (some event) t1 st0).2).2.events
      = st0.events ++ [{
          event_id := (normalizeEvent event t1).event_id,
          first_seen_at := t1,
          event_type := (normalizeEvent event t1).event_type,
          occurred_at := (normalizeEvent event t1).occurred_at,
          raw_event := (normalizeEvent event t1).raw_event,
          last_seen_at := t2,
          verification_method := (smsVerify cfg edVerify hmacSha256Hex hdrs rawBody).2 }] ∧
    ((telnyxSmsWebhook cfg edVerify hmacSha256Hex hdrs rawBody (some event) t2
        (telnyxSmsWebhook cfg edVerify hmacSha256Hex hdrs rawBody (some event) t1 st0).2).2.events.filter
      (fun d => d.event_id = (normalizeEvent event t1).event_id)).length = 1 ∧
    (telnyxSmsWebhook cfg edVerify hmacSha256Hex hdrs rawBody (some event) t2 st0).2.events
      = st0.events ++ [{
          event_id := (normalizeEvent event t1).event_id,
          first_seen_at := t2,
          event_type := (normalizeEvent event t1).event_type,
          occurred_at := (normalizeEvent event t1).occurred_at,
          raw_event := (normalizeEvent event t1).raw_event,
          last_seen_at := t2,
          verification_method := (smsVerify cfg edVerify hmacSha256Hex hdrs rawBody).2 }] := by
  have heid2 : jsonTruthy (normalizeEvent event t2).event_id = true := heid
  have h1 := telnyxSmsWebhook_events_eq cfg edVerify hmacSha256Hex hdrs rawBody
    event t1 st0 hver heid
  have h2 := telnyxSmsWebhook_events_eq cfg edVerify hmacSha256Hex hdrs rawBody
    event t2 (telnyxSmsWebhook cfg edVerify hmacSha256Hex hdrs rawBody
      (some event) t1 st0).2 hver heid2
  have hS := telnyxSmsWebhook_events_eq cfg edVerify hmacSha256Hex hdrs rawBody
    event t2 st0 hver heid2
  have hup1 : upsertWebhookEvent st0.events (normalizeEvent event t1).event_id
      (normalizeEvent event t1).event_type (normalizeEvent event t1).occurred_at
      (normalizeEvent event t1).raw_event
      (smsVerify cfg edVerify hmacSha256Hex hdrs rawBody).2 t1
      = st0.events ++ [{
          event_id := (normalizeEvent event t1).event_id, first_seen_at := t1,
          event_type := (normalizeEvent event t1).event_type,
          occurred_at := (normalizeEvent event t1).occurred_at,
          raw_event := (normalizeEvent event t1).raw_event, last_seen_at := t1,
          verification_method := (smsVerify cfg edVerify hmacSha256Hex hdrs rawBody).2 }] :=
    upsertWebhookEvent_not_found _ _ _ _ _ _ _ hfresh
  have hmain : (telnyxSmsWebhook cfg edVerify hmacSha256Hex hdrs rawBody (some event) t2
      (telnyxSmsWebhook cfg edVerify hmacSha256Hex hdrs rawBody (some event) t1 st0).2).2.events
      = st0.events ++ [{
          event_id := (normalizeEvent event t1).event_id,
          first_seen_at := t1,
          event_type := (normalizeEvent event t1).event_type,
          occurred_at := (normalizeEvent event t1).occurred_at,
          raw_event := (normalizeEvent event t1).raw_event,
          last_seen_at := t2,
          verification_method := (smsVerify cfg edVerify hmacSha256Hex hdrs rawBody).2 }] := by
    rw [h2, h1, hup1]
    exact upsertWebhookEvent_found_last st0.events _ _ _ _ _ _ _ hfresh rfl
  refine ⟨hmain, ?_, ?_⟩
  · rw [hmain, List.filter_append]
    have hnil : st0.events.filter
        (fun d => decide (d.event_id = (normalizeEvent event t1).event_id)) = [] := by
      rw [List.filter_eq_nil_iff]
      intro d hd
      simpa using hfresh d hd
    rw [hnil]
    simp
  · rw [hS]
    exact upsertWebhookEvent_not_found _ _ _ _ _ _ _ hfresh

/-- Witness for C1 at a concrete verified event delivered at times 11 and
12 into an empty store. -/
theorem C1_event_upsert_idempotent_witness :
    (telnyxSmsWebhook ⟨true, "PK", ""⟩ (fun _ _ _ _ => .ok) (fun _ _ => "d")
        ⟨some "sig", some "ts", none⟩ "body"
        (some (.obj [("data", .obj [("id", .str "evt1")])])) 12
        (telnyxSmsWebhook ⟨true, "PK", ""⟩ (fun _ _ _ _ => .ok) (fun _ _ => "d")
          ⟨some "sig", some "ts", none⟩ "body"
          (some (.obj [("data", .obj [("id", .str "evt1")])])) 11
          ⟨[], []⟩).2).2.events.map
      (fun d => (d.event_id, d.first_seen_at, d.last_seen_at))
      = [(.str "evt1", 11, 12)] := by
  have h := C1_event_upsert_idempotent ⟨true, "PK", ""⟩ (fun _ _ _ _ => .ok)
    (fun _ _ => "d") ⟨some "sig", some "ts", none⟩ "body"
    (.obj [("data", .obj [("id", .str "evt1")])]) 11 12 ⟨[], []⟩
    (by decide) (by decide) (by intro d hd; exact absurd hd (by simp))
  rw [h.1]
  rfl

/-!  C4: completion stamping.  -/

theorem mem_of_findCall (store : List CallDoc) (cid : Json) (existing : CallDoc)
    (hfound : store.find? (fun d => matchesCall d cid) = some existing) :
    existing ∈ store :=
  List.mem_of_find?_eq_some hfound

theorem mem_updateFirstCall (store : List CallDoc) (cid : Json) (f : CallDoc → CallDoc)
    (existing : CallDoc)
    (hfound : store.find? (fun d => matchesCall d cid) = some existing) :
    f existing ∈ updateFirstCall store cid f := by
  induction store with
  | nil => simp at hfound
  | cons d rest ih =>
    simp only [List.find?_cons] at hfound
    by_cases hd : matchesCall d cid
    · rw [hd] at hfound
      have hde : d = existing := Option.some.inj hfound
      simp only [updateFirstCall, if_pos hd]
      exact hde ▸ List.mem_cons_self _ _
    · rw [Bool.not_eq_true] at hd
      rw [hd] at hfound
      simp only [updateFirstCall, hd, Bool.false_eq_true, if_false]
      exact List.mem_cons_of_mem _ (ih hfound)

theorem handleCallWebhook_existing_state (store : List CallDoc)
    (rdFields : List (String × Json)) (now : Nat) (cid : Json) (existing : CallDoc)
    (hres : resolveCallIdentifier rdFields = some cid)
    (hcid : jsonTruthy cid = true)
    (hne : rdFields ≠ [])
    (hfound : store.find? (fun d => matchesCall d cid) = some existing)
    (hnp : hasPushOp (buildCallOps existing (cleanedPayload rdFields cid now)
      (isFinalUpdate (cleanedPayload rdFields cid now)) now) = false) :
    (handleCallWebhook store (some (.obj rdFields)) now).2
      = if (buildCallOps existing (cleanedPayload rdFields cid now)
            (isFinalUpdate (cleanedPayload rdFields cid now)) now).isEmpty
        then store
        else updateFirstCall store cid (fun d => applyCallOps d
          (buildCallOps existing (cleanedPayload rdFields cid now)
            (isFinalUpdate (cleanedPayload rdFields cid now)) now)) := by
  have hbody : jsonTruthy (Json.obj rdFields) = true := by
    simp [jsonTruthy, List.isEmpty_iff, hne]
  simp only [handleCallWebhook, hbody, hres, hcid, Bool.not_true,
    Bool.false_eq_true, if_false, hfound, hnp]
  split
  · rfl
  · rfl

/-- A payload contributing fresh conversation-log entries builds a push
item; the resulting update document is invalid, `update_one` raises and the
endpoint answers 500 with nothing persisted. -/
theorem handleCallWebhook_push_error (store : List CallDoc)
    (rdFields : List (String × Json)) (now : Nat) (cid : Json) (existing : CallDoc)
    (hres : resolveCallIdentifier rdFields = some cid)
    (hcid : jsonTruthy cid = true)
    (hne : rdFields ≠ [])
    (hfound : store.find? (fun d => matchesCall d cid) = some existing)
    (hp : hasPushOp (buildCallOps existing (cleanedPayload rdFields cid now)
      (isFinalUpdate (cleanedPayload rdFields cid now)) now) = true) :
    handleCallWebhook store (some (.obj rdFields)) now = (.serverError, store) := by
  have hbody : jsonTruthy (Json.obj rdFields) = true := by
    simp [jsonTruthy, List.isEmpty_iff, hne]
  simp only [handleCallWebhook, hbody, hres, hcid, Bool.not_true,
    Bool.false_eq_true, if_false, hfound, hp, if_true]

theorem applyCallOps_append (d : CallDoc) (l1 l2 : List CallOp) :
    applyCallOps d (l1 ++ l2) = applyCallOps (applyCallOps d l1) l2 :=
  List.foldl_append _ _ _ _

theorem callOps_final_lookup (existing : CallDoc) (cleaned : List (String × Json))
    (now : Nat) :
    lookupField (applyCallOps existing (buildCallOps existing cleaned true now))
        "call_completed" = some (.bool true) ∧
    lookupField (applyCallOps existing (buildCallOps existing cleaned true now))
        "final_updated_at" = some (.num now) ∧
    (hasMinimumData existing cleaned = true →
      lookupField (applyCallOps existing (buildCallOps existing cleaned true now))
          "qualified" = some (.bool true) ∧
      lookupField (applyCallOps existing (buildCallOps existing cleaned true now))
          "lead_status" = some (.str "pending_approval")) := by
  have hsplit : buildCallOps existing cleaned true now
      = ((cleaned.map (fun kv => callUpdateOpsForField existing kv.1 kv.2)).flatten) ++
        ([.setTop "call_completed" (.bool true),
          .setTop "final_updated_at" (.num now)] ++
         (if hasMinimumData existing cleaned then
           [.setTop "qualified" (.bool true),
            .setTop "lead_status" (.str "pending_approval")]
          else [])) := by
    simp [buildCallOps]
  rw [hsplit, applyCallOps_append]
  by_cases hmd : hasMinimumData existing cleaned = true
  · rw [if_pos hmd]
    refine ⟨?_, ?_, fun _ => ⟨?_, ?_⟩⟩ <;>
      simp [applyCallOps, applyCallOp, lookup_assocSet_self, lookup_assocSet_ne]
  · rw [if_neg hmd]
    refine ⟨?_, ?_, fun h => absurd h hmd⟩ <;>
      simp [applyCallOps, applyCallOp, lookup_assocSet_self, lookup_assocSet_ne]

/-- C4 amended: when a call document already exists for the key, a payload
making the call final that does NOT contribute fresh conversation-log
entries (those make the update document invalid and the endpoint 500 with
nothing persisted) stamps `call_completed = true` and
`final_updated_at = now` on it, and when the four required sub-fields are
present across the merged existing-and-incoming view it also stamps
`qualified = true` and `lead_status = "pending_approval"`; the response
reports the final flag. -/
theorem C4_completion_stamps_existing_record (store : List CallDoc)
    (rdFields : List (String × Json)) (now : Nat) (cid : Json) (existing : CallDoc)
    (hres : resolveCallIdentifier rdFields = some cid)
    (hcid : jsonTruthy cid = true)
    (hne : rdFields ≠ [])
    (hfound : store.find? (fun d => matchesCall d cid) = some existing)
    (hfinal : isFinalUpdate (cleanedPayload rdFields cid now) = true)
    (hnp : hasPushOp (buildCallOps existing (cleanedPayload rdFields cid now)
      true now) = false) :
    ∃ updated ∈ (handleCallWebhook store (some (.obj rdFields)) now).2,
      lookupField updated "call_completed" = some (.bool true) ∧
      lookupField updated "final_updated_at" = some (.num now) ∧
      (hasMinimumData existing (cleanedPayload rdFields cid now) = true →
        lookupField updated "qualified" = some (.bool true) ∧
        lookupField updated "lead_status" = some (.str "pending_approval")) := by
  have hnp2 : hasPushOp (buildCallOps existing (cleanedPayload rdFields cid now)
      (isFinalUpdate (cleanedPayload rdFields cid now)) now) = false := by
    rw [hfinal]
    exact hnp
  have hstate := handleCallWebhook_existing_state store rdFields now cid existing
    hres hcid hne hfound hnp2
  rw [hfinal] at hstate
  have hops : (buildCallOps existing (cleanedPayload rdFields cid now) true now).isEmpty
      = false := by
    simp [buildCallOps, List.isEmpty_eq_false]
  rw [hops, if_neg (by simp)] at hstate
  refine ⟨applyCallOps existing
    (buildCallOps existing (cleanedPayload rdFields cid now) true now), ?_, ?_⟩
  · rw [hstate]
    exact mem_updateFirstCall store cid _ existing hfound
  · exact callOps_final_lookup existing (cleanedPayload rdFields cid now) now

/-- Witness for the amended C4: concrete final update of an existing
record that carries all four required sub-fields. -/
theorem C4_completion_stamps_existing_record_witness :
    ∃ updated ∈ (handleCallWebhook
        [[("call_key", .str "c1"), ("contact", .obj [("name", .str "Bob")])]]
        (some (.obj [
          ("call_key", .str "c1"),
          ("call_status", .str "completed"),
          ("contact", .obj [("phone_e164", .str "+15550001111")]),
          ("service_address", .obj [("street", .str "1 Main St")]),
          ("problem", .obj [("summary", .str "leak")])])) 9).2,
      lookupField updated "call_completed" = some (.bool true) ∧
      lookupField updated "final_updated_at" = some (.num 9) ∧
      (hasMinimumData [("call_key", .str "c1"), ("contact", .obj [("name", .str "Bob")])]
          (cleanedPayload [
            ("call_key", .str "c1"),
            ("call_status", .str "completed"),
            ("contact", .obj [("phone_e164", .str "+15550001111")]),
            ("service_address", .obj [("street", .str "1 Main St")]),
            ("problem", .obj [("summary", .str "leak")])] (.str "c1") 9) = true →
        lookupField updated "qualified" = some (.bool true) ∧
        lookupField updated "lead_status" = some (.str "pending_approval")) :=
  C4_completion_stamps_existing_record
    [[("call_key", .str "c1"), ("contact", .obj [("name", .str "Bob")])]]
    [("call_key", .str "c1"),
     ("call_status", .str "completed"),
     ("contact", .obj [("phone_e164", .str "+15550001111")]),
     ("service_address", .obj [("street", .str "1 Main St")]),
     ("problem", .obj [("summary", .str "leak")])]
    9 (.str "c1")
    [("call_key", .str "c1"), ("contact", .obj [("name", .str "Bob")])]
    (by decide) (by decide) (by decide) (by decide) (by decide) (by decide)

/-- Payload that makes a call final on its very first delivery (no document
exists yet for the key) and carries all four required sub-fields. -/
def c4FinalNewCallPayload : Json := .obj [
  ("call_key", .str "c1"),
  ("call_status", .str "completed"),
  ("contact", .obj [("name", .str "Bob"), ("phone_e164", .str "+15550001111")]),
  ("service_address", .obj [("street", .str "1 Main St")]),
  ("problem", .obj [("summary", .str "leak")])]

/-- C4 counterexample: on a transition into completed with no existing
document for the call key, the insert path stores the record WITHOUT
`call_completed = true`, without `final_updated_at`, and without the
qualification stamp, even though the response reports the update as final
and all four required sub-fields are present. -/
theorem C4_counterexample :
    (handleCallWebhook [] (some c4FinalNewCallPayload) 5).1
      = .success "created" (.str "c1") true (.str "in_progress") ∧
    ((handleCallWebhook [] (some c4FinalNewCallPayload) 5).2.map
      (fun d => (lookupField d "call_completed", lookupField d "qualified",
                 lookupField d "lead_status", lookupField d "final_updated_at")))
      = [(some (.bool false), some (.bool false), some (.str "new"), none)] :=
  ⟨by decide, by decide⟩


/-!  C2: non-destructive nested merge.  -/

/-- Sub-field of a nested object of a call document. -/
def getSub (d : CallDoc) (k sub : String) : Option Json :=
  lookupField (getObjFields d k) sub

theorem not_mem_cleanFields_of_drops (fs : List (String × Json)) (s : String)
    (h : ∀ w, (s, w) ∈ fs → cleanKeep w = none) :
    ∀ w, (s, w) ∉ cleanFields fs := by
  induction fs with
  | nil => intro w hw; simp [cleanFields] at hw
  | cons hd tl ih =>
    obtain ⟨k, v⟩ := hd
    intro w hw
    have htl : ∀ w, (s, w) ∈ tl → cleanKeep w = none :=
      fun w hw => h w (List.mem_cons_of_mem _ hw)
    simp only [cleanFields] at hw
    cases hk : cleanKeep v with
    | none =>
      rw [hk] at hw
      exact ih htl w hw
    | some cv =>
      rw [hk] at hw
      rcases List.mem_cons.mp hw with h1 | h1
      · have hks : s = k := congrArg Prod.fst h1
        have := h v (by rw [hks]; exact List.mem_cons_self _ _)
        rw [this] at hk
        exact Option.noConfusion hk
      · exact ih htl w h1

theorem mem_cleanFields_src (fs : List (String × Json)) (k : String) (v : Json)
    (hmem : (k, v) ∈ cleanFields fs) :
    ∃ v0, (k, v0) ∈ fs ∧ cleanKeep v0 = some v := by
  induction fs with
  | nil => simp [cleanFields] at hmem
  | cons hd tl ih =>
    obtain ⟨k0, v0⟩ := hd
    simp only [cleanFields] at hmem
    cases hk : cleanKeep v0 with
    | none =>
      rw [hk] at hmem
      obtain ⟨w, hw, hcw⟩ := ih hmem
      exact ⟨w, List.mem_cons_of_mem _ hw, hcw⟩
    | some cv =>
      rw [hk] at hmem
      rcases List.mem_cons.mp hmem with h1 | h1
      · have hk0 : k0 = k := by injection h1 with h1a _; exact h1a.symm
        have hcv : cv = v := by injection h1 with _ h1b; exact h1b.symm
        exact ⟨v0, by rw [← hk0]; exact List.mem_cons_self _ _, by rw [hk, hcv]⟩
      · obtain ⟨w, hw, hcw⟩ := ih h1
        exact ⟨w, List.mem_cons_of_mem _ hw, hcw⟩

theorem cleanKeep_obj_inv (v0 : Json) (fs0 : List (String × Json))
    (h : cleanKeep v0 = some (.obj fs0)) :
    ∃ fs1, v0 = .obj fs1 ∧ fs0 = cleanFields fs1 := by
  cases v0 with
  | null => simp [cleanKeep] at h
  | str s =>
    by_cases hs : s = "" <;> simp [cleanKeep, hs] at h
  | num n =>
    simp [cleanKeep] at h
  | bool b =>
    simp [cleanKeep] at h
  | obj fs1 =>
    refine ⟨fs1, rfl, ?_⟩
    simp only [cleanKeep] at h
    by_cases ht : jsonTruthy (.obj (cleanFields fs1)) = true
    · rw [if_pos ht] at h
      injection h with h1
      injection h1 with h2
      exact h2.symm
    · rw [if_neg ht] at h
      exact Option.noConfusion h
  | arr its =>
    simp only [cleanKeep] at h
    by_cases ht : jsonTruthy (.arr (cleanItems its)) = true
    · rw [if_pos ht] at h
      injection h with h1
      exact Json.noConfusion h1
    · rw [if_neg ht] at h
      exact Option.noConfusion h

theorem getSub_congr (d d2 : CallDoc) (K s : String)
    (h : lookupField d2 K = lookupField d K) : getSub d2 K s = getSub d K s := by
  simp [getSub, getObjFields, h]

theorem getSub_applyCallOp (d : CallDoc) (K s : String) (op : CallOp)
    (hK : K ≠ "conversation_log")
    (h1 : ∀ k v, op = .setTop k v → k ≠ K)
    (h2 : ∀ k sub v, op = .setNested k sub v → k ≠ K ∨ sub ≠ s) :
    getSub (applyCallOp d op) K s = getSub d K s := by
  cases op with
  | setTop k v =>
    have hk := h1 k v rfl
    exact getSub_congr d _ K s
      (lookup_assocSet_ne d k K v (fun hh => hk hh.symm))
  | setNested k sub v =>
    by_cases hkK : k = K
    · rcases h2 k sub v rfl with hk | hsub
      · exact absurd hkK hk
      · subst hkK
        simp only [applyCallOp]
        have hobj : getObjFields
            (assocSet d k (.obj (assocSet (getObjFields d k) sub v))) k
            = assocSet (getObjFields d k) sub v := by
          simp [getObjFields, lookup_assocSet_self]
        show lookupField (getObjFields
          (assocSet d k (.obj (assocSet (getObjFields d k) sub v))) k) s
          = getSub d k s
        rw [hobj]
        exact lookup_assocSet_ne _ sub s v (fun hh => hsub hh.symm)
    · exact getSub_congr d _ K s
        (lookup_assocSet_ne d k K _ (fun hh => hkK hh.symm))
  | pushLog es =>
    exact getSub_congr d _ K s
      (lookup_assocSet_ne d "conversation_log" K _ hK)

theorem getSub_applyCallOps (d : CallDoc) (ops : List CallOp) (K s : String)
    (hK : K ≠ "conversation_log")
    (h : ∀ op ∈ ops, (∀ k v, op = .setTop k v → k ≠ K) ∧
         (∀ k sub v, op = .setNested k sub v → k ≠ K ∨ sub ≠ s)) :
    getSub (applyCallOps d ops) K s = getSub d K s := by
  induction ops generalizing d with
  | nil => rfl
  | cons op rest ih =>
    have hop := h op (List.mem_cons_self _ _)
    calc getSub (applyCallOps d (op :: rest)) K s
        = getSub (applyCallOps (applyCallOp d op) rest) K s := rfl
      _ = getSub (applyCallOp d op) K s :=
          ih _ (fun o ho => h o (List.mem_cons_of_mem _ ho))
      _ = getSub d K s := getSub_applyCallOp d K s op hK hop.1 hop.2

theorem callUpdateOpsForField_shapes (existing : CallDoc) (key : String)
    (value : Json) (op : CallOp)
    (hop : op ∈ callUpdateOpsForField existing key value) :
    (∃ v, op = .setTop key v ∧
       ¬(key = "contact" ∨ key = "service_address" ∨ key = "problem") ∧
       key ≠ "conversation_log" ∧ ¬(v = .null) ∧ ¬(v = .str "")) ∨
    (∃ nk nv nested, op = .setNested key nk nv ∧
       (key = "contact" ∨ key = "service_address" ∨ key = "problem") ∧
       value = .obj nested ∧ (nk, nv) ∈ nested ∧ meaningfulValue nv = true) ∨
    (∃ entries, op = .pushLog (newLogEntries (storedConversationLog existing) entries) ∧
       key = "conversation_log" ∧ value = .arr entries) := by
  unfold callUpdateOpsForField at hop
  by_cases h3 : key = "contact" ∨ key = "service_address" ∨ key = "problem"
  · rw [if_pos h3] at hop
    cases value with
    | obj nested =>
      by_cases hemp : nested.isEmpty
      · simp [hemp] at hop
      · simp only [hemp, Bool.false_eq_true, if_false] at hop
        rw [List.mem_filterMap] at hop
        obtain ⟨kv, hkv, hsome⟩ := hop
        by_cases hmean : meaningfulValue kv.2 = true
        · rw [if_pos hmean] at hsome
          refine Or.inr (Or.inl ⟨kv.1, kv.2, nested, (Option.some.inj hsome).symm,
            h3, rfl, ?_, hmean⟩)
          exact hkv
        · rw [if_neg hmean] at hsome
          exact Option.noConfusion hsome
    | null => simp at hop
    | str s => simp at hop
    | num n => simp at hop
    | bool b => simp at hop
    | arr its => simp at hop
  · rw [if_neg h3] at hop
    by_cases h4 : key = "conversation_log"
    · rw [if_pos h4] at hop
      cases value with
      | arr entries =>
        by_cases hemp : entries.isEmpty
        · simp [hemp] at hop
        · by_cases hfr : (newLogEntries (storedConversationLog existing) entries).isEmpty
          · simp [hemp, hfr] at hop
          · simp only [hemp, hfr, Bool.false_eq_true, if_false,
              List.mem_singleton] at hop
            exact Or.inr (Or.inr ⟨entries, hop, h4, rfl⟩)
      | null => simp at hop
      | str s => simp at hop
      | num n => simp at hop
      | bool b => simp at hop
      | obj fs => simp at hop
    · rw [if_neg h4] at hop
      by_cases h5 : key = "availability"
      · rw [if_pos h5] at hop
        cases value with
        | arr its =>
          by_cases hemp : its.isEmpty
          · simp [hemp] at hop
          · simp only [hemp, Bool.false_eq_true, if_false,
              List.mem_singleton] at hop
            exact Or.inl ⟨.arr its, hop, h3, h4, by simp, by simp⟩
        | null => simp at hop
        | str s => simp at hop
        | num n => simp at hop
        | bool b => simp at hop
        | obj fs => simp at hop
      · rw [if_neg h5] at hop
        by_cases h6 : key = "reason_codes"
        · rw [if_pos h6] at hop
          cases value with
          | arr codes =>
            by_cases hemp : codes.isEmpty
            · simp [hemp] at hop
            · simp only [hemp, Bool.false_eq_true, if_false,
                List.mem_singleton] at hop
              exact Or.inl ⟨_, hop, h3, h4, by simp, by simp⟩
          | null => simp at hop
          | str s => simp at hop
          | num n => simp at hop
          | bool b => simp at hop
          | obj fs => simp at hop
        · rw [if_neg h6] at hop
          by_cases hmean : meaningfulValue value = true
          · simp only [hmean, if_true, List.mem_singleton] at hop
            refine Or.inl ⟨value, hop, h3, h4, ?_, ?_⟩
            · intro hv; rw [hv] at hmean; simp [meaningfulValue] at hmean
            · intro hv; rw [hv] at hmean; simp [meaningfulValue] at hmean
          · simp [hmean] at hop

theorem mem_cleanedPayload_of_ne (rdFields : List (String × Json)) (cid : Json)
    (now : Nat) (K : String) (v : Json)
    (hK1 : K ≠ "updated_at") (hK2 : K ≠ "call_key")
    (hmem : (K, v) ∈ cleanedPayload rdFields cid now) :
    (K, v) ∈ cleanFields rdFields := by
  simp only [cleanedPayload] at hmem
  by_cases hck : (lookupField (assocSet (cleanFields rdFields) "updated_at"
      (.num now)) "call_key").isSome
  · rw [if_pos hck] at hmem
    exact mem_assocSet_ne _ _ _ _ _ hmem hK1
  · rw [if_neg hck] at hmem
    exact mem_assocSet_ne _ _ _ _ _ (mem_assocSet_ne _ _ _ _ _ hmem hK2) hK1

theorem buildCallOps_no_touch (existing : CallDoc) (cleaned : List (String × Json))
    (final : Bool) (now : Nat) (K s : String)
    (hK : K = "contact" ∨ K = "service_address" ∨ K = "problem")
    (hsub : ∀ v nested, (K, v) ∈ cleaned → v = .obj nested → ∀ w, (s, w) ∉ nested) :
    ∀ op ∈ buildCallOps existing cleaned final now,
      (∀ k v, op = .setTop k v → k ≠ K) ∧
      (∀ k sub v, op = .setNested k sub v → k ≠ K ∨ sub ≠ s) := by
  intro op hop
  unfold buildCallOps at hop
  rcases List.mem_append.mp hop with hl | hf
  · rw [List.mem_flatten] at hl
    obtain ⟨l, hlmem, hopl⟩ := hl
    rw [List.mem_map] at hlmem
    obtain ⟨kv, hkv, hleq⟩ := hlmem
    rw [← hleq] at hopl
    rcases callUpdateOpsForField_shapes existing kv.1 kv.2 op hopl with
      ⟨v, hop1, hnot3, _, _, _⟩ |
      ⟨nk, nv, nested, hop2, _, hval, hmemn, _⟩ |
      ⟨entries, hop3, _, _⟩
    · constructor
      · intro k v2 heq
        rw [hop1] at heq
        have hk : kv.1 = k := by injection heq
        intro hkK
        exact hnot3 (hk ▸ hkK ▸ hK)
      · intro k sub v2 heq
        rw [hop1] at heq
        exact CallOp.noConfusion heq
    · constructor
      · intro k v2 heq
        rw [hop2] at heq
        exact CallOp.noConfusion heq
      · intro k sub2 v2 heq
        rw [hop2] at heq
        have hk : kv.1 = k := by injection heq
        have hs2 : nk = sub2 := by injection heq
        by_cases hkvK : kv.1 = K
        · right
          intro hss
          have hkv2 : (kv.1, kv.2) ∈ cleaned := by simpa using hkv
          rw [hkvK] at hkv2
          have hmem2 : (s, nv) ∈ nested := by rw [← hss, ← hs2]; exact hmemn
          exact hsub kv.2 nested hkv2 hval nv hmem2
        · left
          rw [← hk]
          exact hkvK
    · constructor
      · intro k v2 heq
        rw [hop3] at heq
        exact CallOp.noConfusion heq
      · intro k sub2 v2 heq
        rw [hop3] at heq
        exact CallOp.noConfusion heq
  · have hkeys : ∀ k (v : Json), op = .setTop k v →
        (k = "call_completed" ∨ k = "final_updated_at" ∨ k = "qualified" ∨
         k = "lead_status") := by
      intro k v heq
      cases final with
      | false => simp at hf
      | true =>
        by_cases hmd : hasMinimumData existing cleaned = true
        · simp only [hmd, if_true, if_pos] at hf
          rcases (by simpa using hf :
              op = CallOp.setTop "call_completed" (.bool true) ∨
              op = CallOp.setTop "final_updated_at" (.num now) ∨
              op = CallOp.setTop "qualified" (.bool true) ∨
              op = CallOp.setTop "lead_status" (.str "pending_approval"))
            with h | h | h | h <;> rw [h] at heq <;>
            [exact Or.inl (by injection heq with ha _; exact ha.symm);
             exact Or.inr (Or.inl (by injection heq with ha _; exact ha.symm));
             exact Or.inr (Or.inr (Or.inl (by injection heq with ha _; exact ha.symm)));
             exact Or.inr (Or.inr (Or.inr (by injection heq with ha _; exact ha.symm)))]
        · simp only [hmd] at hf
          rcases (by simpa using hf :
              op = CallOp.setTop "call_completed" (.bool true) ∨
              op = CallOp.setTop "final_updated_at" (.num now))
            with h | h <;> rw [h] at heq <;>
            [exact Or.inl (by injection heq with ha _; exact ha.symm);
             exact Or.inr (Or.inl (by injection heq with ha _; exact ha.symm))]
    have hnested : ∀ k sub (v : Json), op ≠ .setNested k sub v := by
      intro k sub v heq
      cases final with
      | false => simp at hf
      | true =>
        by_cases hmd : hasMinimumData existing cleaned = true
        · rcases (by simpa [hmd] using hf :
              op = CallOp.setTop "call_completed" (.bool true) ∨
              op = CallOp.setTop "final_updated_at" (.num now) ∨
              op = CallOp.setTop "qualified" (.bool true) ∨
              op = CallOp.setTop "lead_status" (.str "pending_approval"))
            with h | h | h | h <;> rw [h] at heq <;> exact CallOp.noConfusion heq
        · rcases (by simpa [hmd] using hf :
              op = CallOp.setTop "call_completed" (.bool true) ∨
              op = CallOp.setTop "final_updated_at" (.num now))
            with h | h <;> rw [h] at heq <;> exact CallOp.noConfusion heq
    constructor
    · intro k v heq
      rcases hkeys k v heq with h | h | h | h <;> subst h <;>
        rcases hK with h | h | h <;> subst h <;> decide
    · intro k sub v heq
      exact absurd heq (hnested k sub v)

/-- C2: an update whose nested object (`contact`, `service_address` or
`problem`) omits a sub-field, or supplies it only with values the cleaner
drops (`None`, `""`, empty containers), leaves the previously stored value
of that sub-field unchanged on the matched call document. -/
theorem C2_merge_preserves_omitted_subfields (store : List CallDoc)
    (rdFields : List (String × Json)) (now : Nat) (K s : String) (cid : Json)
    (existing : CallDoc)
    (hK : K = "contact" ∨ K = "service_address" ∨ K = "problem")
    (hres : resolveCallIdentifier rdFields = some cid)
    (hcid : jsonTruthy cid = true)
    (hne : rdFields ≠ [])
    (hfound : store.find? (fun d => matchesCall d cid) = some existing)
    (homit : ∀ v fs0, (K, v) ∈ rdFields → v = .obj fs0 →
       ∀ w, (s, w) ∈ fs0 → cleanKeep w = none) :
    ∃ updated ∈ (handleCallWebhook store (some (.obj rdFields)) now).2,
      getSub updated K s = getSub existing K s := by
  have hKne1 : K ≠ "updated_at" := by rcases hK with h|h|h <;> subst h <;> decide
  have hKne2 : K ≠ "call_key" := by rcases hK with h|h|h <;> subst h <;> decide
  have hKne3 : K ≠ "conversation_log" := by
    rcases hK with h|h|h <;> subst h <;> decide
  have hsub : ∀ v nested, (K, v) ∈ cleanedPayload rdFields cid now →
      v = .obj nested → ∀ w, (s, w) ∉ nested := by
    intro v nested hmem hval w hw
    have hmem2 := mem_cleanedPayload_of_ne rdFields cid now K v hKne1 hKne2 hmem
    obtain ⟨v0, hv0mem, hkeep⟩ := mem_cleanFields_src _ _ _ hmem2
    rw [hval] at hkeep
    obtain ⟨fs1, hv0eq, hfs0⟩ := cleanKeep_obj_inv v0 nested hkeep
    have hdrop : ∀ w2, (s, w2) ∈ fs1 → cleanKeep w2 = none :=
      fun w2 hw2 => homit v0 fs1 hv0mem hv0eq w2 hw2
    rw [hfs0] at hw
    exact not_mem_cleanFields_of_drops fs1 s hdrop w hw
  have hops := buildCallOps_no_touch existing (cleanedPayload rdFields cid now)
    (isFinalUpdate (cleanedPayload rdFields cid now)) now K s hK hsub
  by_cases hp : hasPushOp (buildCallOps existing (cleanedPayload rdFields cid now)
      (isFinalUpdate (cleanedPayload rdFields cid now)) now) = true
  · have herr := handleCallWebhook_push_error store rdFields now cid existing
      hres hcid hne hfound hp
    exact ⟨existing,
      by rw [herr]; exact mem_of_findCall store cid existing hfound, rfl⟩
  rw [Bool.not_eq_true] at hp
  have hstate := handleCallWebhook_existing_state store rdFields now cid existing
    hres hcid hne hfound hp
  by_cases hemp : (buildCallOps existing (cleanedPayload rdFields cid now)
      (isFinalUpdate (cleanedPayload rdFields cid now)) now).isEmpty
  · rw [if_pos hemp] at hstate
    exact ⟨existing, by rw [hstate]; exact mem_of_findCall store cid existing hfound, rfl⟩
  · rw [if_neg hemp] at hstate
    refine ⟨applyCallOps existing (buildCallOps existing
        (cleanedPayload rdFields cid now)
        (isFinalUpdate (cleanedPayload rdFields cid now)) now),
      by rw [hstate]; exact mem_updateFirstCall store cid _ existing hfound, ?_⟩
    exact getSub_applyCallOps existing _ K s hKne3 hops

/-- Existing call document of the Jane merge scenario. -/
def c2ExistingDoc : CallDoc :=
  [("call_key", .str "c1"), ("contact", .obj [("name", .str "Jane")])]

/-- Update payload carrying only the new phone inside `contact`. -/
def c2UpdateFields : List (String × Json) :=
  [("call_key", .str "c1"), ("contact", .obj [("phone_e164", .str "+15551234567")])]

/-- Witness for C2: the Jane record keeps its stored name under an update
whose contact object carries only the phone; the phone is merged in. -/
theorem C2_merge_preserves_omitted_subfields_witness :
    (∃ updated ∈ (handleCallWebhook [c2ExistingDoc] (some (.obj c2UpdateFields)) 7).2,
      getSub updated "contact" "name" = getSub c2ExistingDoc "contact" "name") ∧
    ((handleCallWebhook [c2ExistingDoc] (some (.obj c2UpdateFields)) 7).2.map
      (fun d => (getSub d "contact" "name", getSub d "contact" "phone_e164")))
      = [(some (.str "Jane"), some (.str "+15551234567"))] := by
  constructor
  · refine C2_merge_preserves_omitted_subfields [c2ExistingDoc] c2UpdateFields 7
      "contact" "name" (.str "c1") c2ExistingDoc (Or.inl rfl) (by decide)
      (by decide) (by decide) (by decide) ?_
    intro v fs0 hmem hval w hw
    exfalso
    simp only [c2UpdateFields, List.mem_cons, List.mem_singleton,
      Prod.mk.injEq] at hmem
    rcases hmem with ⟨h1, _⟩ | ⟨-, h2⟩ | h3
    · exact absurd h1 (by decide)
    · rw [h2] at hval
      injection hval with hfs
      rw [← hfs] at hw
      simp only [List.mem_singleton, Prod.mk.injEq] at hw
      exact absurd hw.1 (by decide)
    · simp at h3
  · decide

/-!  Operator-level accounting of the conversation-log push item.  These
lemmas describe `applyCallOps`, i.e. what the update document WOULD do if
MongoDB accepted it; the handler itself never reaches that application when
a push item is present (see `hasPushOp` and the C5 theorems below).  -/

/-- Entries pushed into `conversation_log` by an update operator. -/
def pushedEntries : CallOp → List Json
  | .pushLog es => es
  | _ => []

theorem storedLog_congr (d d2 : CallDoc)
    (h : lookupField d2 "conversation_log" = lookupField d "conversation_log") :
    storedConversationLog d2 = storedConversationLog d := by
  simp [storedConversationLog, h]

theorem storedLog_applyCallOp (d : CallDoc) (op : CallOp)
    (h1 : ∀ k v, op = .setTop k v → k ≠ "conversation_log")
    (h2 : ∀ k sub v, op = .setNested k sub v → k ≠ "conversation_log") :
    storedConversationLog (applyCallOp d op)
      = storedConversationLog d ++ pushedEntries op := by
  cases op with
  | setTop k v =>
    have hk := h1 k v rfl
    rw [show pushedEntries (CallOp.setTop k v) = [] from rfl, List.append_nil]
    exact storedLog_congr d _ (lookup_assocSet_ne d k _ v (fun hh => hk hh.symm))
  | setNested k sub v =>
    have hk := h2 k sub v rfl
    rw [show pushedEntries (CallOp.setNested k sub v) = [] from rfl, List.append_nil]
    exact storedLog_congr d _ (lookup_assocSet_ne d k _ _ (fun hh => hk hh.symm))
  | pushLog es =>
    simp [applyCallOp, storedConversationLog, pushedEntries, lookup_assocSet_self]

theorem storedLog_applyCallOps (d : CallDoc) (ops : List CallOp)
    (h : ∀ op ∈ ops, (∀ k v, op = .setTop k v → k ≠ "conversation_log") ∧
         (∀ k sub v, op = .setNested k sub v → k ≠ "conversation_log")) :
    storedConversationLog (applyCallOps d ops)
      = storedConversationLog d ++ (ops.map pushedEntries).flatten := by
  induction ops generalizing d with
  | nil => simp [applyCallOps]
  | cons op rest ih =>
    have hop := h op (List.mem_cons_self _ _)
    calc storedConversationLog (applyCallOps d (op :: rest))
        = storedConversationLog (applyCallOps (applyCallOp d op) rest) := rfl
      _ = storedConversationLog (applyCallOp d op)
            ++ (rest.map pushedEntries).flatten :=
          ih _ (fun o ho => h o (List.mem_cons_of_mem _ ho))
      _ = (storedConversationLog d ++ pushedEntries op)
            ++ (rest.map pushedEntries).flatten := by
          rw [storedLog_applyCallOp d op hop.1 hop.2]
      _ = storedConversationLog d ++ ((op :: rest).map pushedEntries).flatten := by
          simp

theorem buildCallOps_no_top_convlog (existing : CallDoc)
    (cleaned : List (String × Json)) (final : Bool) (now : Nat) :
    ∀ op ∈ buildCallOps existing cleaned final now,
      (∀ k v, op = .setTop k v → k ≠ "conversation_log") ∧
      (∀ k sub v, op = .setNested k sub v → k ≠ "conversation_log") := by
  intro op hop
  unfold buildCallOps at hop
  rcases List.mem_append.mp hop with hl | hf
  · rw [List.mem_flatten] at hl
    obtain ⟨l, hlmem, hopl⟩ := hl
    rw [List.mem_map] at hlmem
    obtain ⟨kv, hkv, hleq⟩ := hlmem
    rw [← hleq] at hopl
    rcases callUpdateOpsForField_shapes existing kv.1 kv.2 op hopl with
      ⟨v, hop1, _, hncl, _, _⟩ | ⟨nk, nv, nested, hop2, h3, _, _, _⟩ | ⟨entries, hop3, _, _⟩
    · constructor
      · intro k v2 heq
        rw [hop1] at heq
        have hk : kv.1 = k := by injection heq
        rw [← hk]
        exact hncl
      · intro k sub v2 heq
        rw [hop1] at heq
        exact CallOp.noConfusion heq
    · constructor
      · intro k v2 heq
        rw [hop2] at heq
        exact CallOp.noConfusion heq
      · intro k sub2 v2 heq
        rw [hop2] at heq
        have hk : kv.1 = k := by injection heq
        rw [← hk]
        rcases h3 with h | h | h <;> rw [h] <;> decide
    · constructor
      · intro k v2 heq
        rw [hop3] at heq
        exact CallOp.noConfusion heq
      · intro k sub2 v2 heq
        rw [hop3] at heq
        exact CallOp.noConfusion heq
  · have hshape : (op = CallOp.setTop "call_completed" (.bool true) ∨
        op = CallOp.setTop "final_updated_at" (.num now) ∨
        op = CallOp.setTop "qualified" (.bool true) ∨
        op = CallOp.setTop "lead_status" (.str "pending_approval")) := by
      cases final with
      | false => simp at hf
      | true =>
        by_cases hmd : hasMinimumData existing cleaned = true
        · simpa [hmd] using hf
        · rcases (by simpa [hmd] using hf :
              op = CallOp.setTop "call_completed" (.bool true) ∨
              op = CallOp.setTop "final_updated_at" (.num now)) with h | h
          · exact Or.inl h
          · exact Or.inr (Or.inl h)
    constructor
    · intro k v heq
      have hkey : k = "call_completed" ∨ k = "final_updated_at" ∨
          k = "qualified" ∨ k = "lead_status" := by
        rcases hshape with h | h | h | h <;> rw [h] at heq <;>
          [exact Or.inl (by injection heq with ha _; exact ha.symm);
           exact Or.inr (Or.inl (by injection heq with ha _; exact ha.symm));
           exact Or.inr (Or.inr (Or.inl (by injection heq with ha _; exact ha.symm)));
           exact Or.inr (Or.inr (Or.inr (by injection heq with ha _; exact ha.symm)))]
      rcases hkey with h | h | h | h <;> subst h <;> decide
    · intro k sub v heq
      rcases hshape with h | h | h | h <;> rw [h] at heq <;>
        exact CallOp.noConfusion heq

theorem pushes_of_field_ne (existing : CallDoc) (k : String) (v : Json)
    (hk : k ≠ "conversation_log") :
    ∀ op ∈ callUpdateOpsForField existing k v, pushedEntries op = [] := by
  intro op hop
  rcases callUpdateOpsForField_shapes existing k v op hop with
    ⟨v2, hop1, _⟩ | ⟨nk, nv, nested, hop2, _⟩ | ⟨entries, _, hcl, _⟩
  · rw [hop1]; rfl
  · rw [hop2]; rfl
  · exact absurd hcl hk

theorem flatten_pushes_nil (l : List CallOp) (h : ∀ op ∈ l, pushedEntries op = []) :
    (l.map pushedEntries).flatten = [] := by
  induction l with
  | nil => rfl
  | cons op rest ih =>
    simp only [List.map_cons, List.flatten_cons, h op (List.mem_cons_self _ _),
      List.nil_append]
    exact ih (fun o ho => h o (List.mem_cons_of_mem _ ho))

theorem pushes_of_convlog (existing : CallDoc) (entries : List Json) :
    ((callUpdateOpsForField existing "conversation_log" (.arr entries)).map
      pushedEntries).flatten
      = newLogEntries (storedConversationLog existing) entries := by
  unfold callUpdateOpsForField
  rw [if_neg (by decide), if_pos rfl]
  show ((if entries.isEmpty = true then ([] : List CallOp) else
      if (newLogEntries (storedConversationLog existing) entries).isEmpty = true then []
      else [CallOp.pushLog (newLogEntries (storedConversationLog existing) entries)]).map
        pushedEntries).flatten
    = newLogEntries (storedConversationLog existing) entries
  by_cases hemp : entries.isEmpty
  · rw [if_pos hemp]
    have he : entries = [] := List.isEmpty_iff.mp hemp
    subst he
    rfl
  · rw [if_neg hemp]
    by_cases hfr : (newLogEntries (storedConversationLog existing) entries).isEmpty
    · rw [if_pos hfr]
      simp [List.isEmpty_iff.mp hfr]
    · rw [if_neg hfr]
      simp [pushedEntries]

theorem loop_pushes_nil (existing : CallDoc) (tl : List (String × Json))
    (h : ∀ kv ∈ tl, kv.1 ≠ "conversation_log") :
    (((tl.map (fun kv => callUpdateOpsForField existing kv.1 kv.2)).flatten).map
      pushedEntries).flatten = [] := by
  apply flatten_pushes_nil
  intro op hop
  rw [List.mem_flatten] at hop
  obtain ⟨l, hlmem, hopl⟩ := hop
  rw [List.mem_map] at hlmem
  obtain ⟨kv, hkv, hleq⟩ := hlmem
  rw [← hleq] at hopl
  exact pushes_of_field_ne existing kv.1 kv.2 (h kv hkv) op hopl

theorem loop_pushes (existing : CallDoc) (cleaned : List (String × Json))
    (entries : List Json)
    (hnd : (cleaned.map Prod.fst).Nodup)
    (hlog : lookupField cleaned "conversation_log" = some (.arr entries)) :
    ((((cleaned.map (fun kv => callUpdateOpsForField existing kv.1 kv.2)).flatten).map
      pushedEntries).flatten)
      = newLogEntries (storedConversationLog existing) entries := by
  induction cleaned with
  | nil => simp [lookupField] at hlog
  | cons hd tl ih =>
    obtain ⟨k, v⟩ := hd
    simp only [List.map_cons, List.nodup_cons] at hnd
    by_cases hk : k = "conversation_log"
    · subst hk
      simp only [lookupField, if_pos rfl] at hlog
      have hv : v = .arr entries := Option.some.inj hlog
      subst hv
      have htl : ∀ kv ∈ tl, kv.1 ≠ "conversation_log" := by
        intro kv hkv heq
        exact hnd.1 (heq ▸ List.mem_map_of_mem Prod.fst hkv)
      simp only [List.map_cons, List.flatten_cons, List.map_append,
        List.flatten_append]
      rw [pushes_of_convlog existing entries, loop_pushes_nil existing tl htl,
        List.append_nil]
    · simp only [lookupField, if_neg hk] at hlog
      simp only [List.map_cons, List.flatten_cons, List.map_append,
        List.flatten_append]
      rw [flatten_pushes_nil _ (pushes_of_field_ne existing k v hk),
        List.nil_append]
      exact ih hnd.2 hlog

theorem finals_pushes_nil (existing : CallDoc) (cleaned : List (String × Json))
    (final : Bool) (now : Nat) :
    (((if final then
        [CallOp.setTop "call_completed" (.bool true),
         CallOp.setTop "final_updated_at" (.num now)] ++
        (if hasMinimumData existing cleaned then
          [CallOp.setTop "qualified" (.bool true),
           CallOp.setTop "lead_status" (.str "pending_approval")]
         else [])
       else []) : List CallOp).map pushedEntries).flatten = [] := by
  apply flatten_pushes_nil
  intro op hop
  cases final with
  | false => simp at hop
  | true =>
    by_cases hmd : hasMinimumData existing cleaned = true
    · rcases (by simpa [hmd] using hop :
          op = CallOp.setTop "call_completed" (.bool true) ∨
          op = CallOp.setTop "final_updated_at" (.num now) ∨
          op = CallOp.setTop "qualified" (.bool true) ∨
          op = CallOp.setTop "lead_status" (.str "pending_approval"))
        with h | h | h | h <;> rw [h] <;> rfl
    · rcases (by simpa [hmd] using hop :
          op = CallOp.setTop "call_completed" (.bool true) ∨
          op = CallOp.setTop "final_updated_at" (.num now)) with h | h <;>
        rw [h] <;> rfl

theorem buildCallOps_storedLog (existing : CallDoc) (cleaned : List (String × Json))
    (final : Bool) (now : Nat) (entries : List Json)
    (hnd : (cleaned.map Prod.fst).Nodup)
    (hlog : lookupField cleaned "conversation_log" = some (.arr entries)) :
    storedConversationLog (applyCallOps existing (buildCallOps existing cleaned final now))
      = storedConversationLog existing
        ++ newLogEntries (storedConversationLog existing) entries := by
  rw [storedLog_applyCallOps existing _
    (buildCallOps_no_top_convlog existing cleaned final now)]
  unfold buildCallOps
  rw [List.map_append, List.flatten_append,
    loop_pushes existing cleaned entries hnd hlog,
    finals_pushes_nil existing cleaned final now, List.append_nil]

theorem cleanFields_keys_sublist (fs : List (String × Json)) :
    List.Sublist ((cleanFields fs).map Prod.fst) (fs.map Prod.fst) := by
  induction fs with
  | nil => simp [cleanFields]
  | cons hd tl ih =>
    obtain ⟨k, v⟩ := hd
    simp only [cleanFields, List.map_cons]
    cases hk : cleanKeep v with
    | none => exact ih.trans (List.sublist_cons_self _ _)
    | some cv =>
      simp only [List.map_cons]
      exact ih.cons₂ _

theorem mem_keys_assocSet (fs : List (String × Json)) (k k0 : String) (v : Json)
    (hmem : k0 ∈ (assocSet fs k v).map Prod.fst) :
    k0 ∈ fs.map Prod.fst ∨ k0 = k := by
  rw [List.mem_map] at hmem
  obtain ⟨kv, hkv, hfst⟩ := hmem
  by_cases hk : k0 = k
  · exact Or.inr hk
  · left
    have hkv2 : (k0, kv.2) ∈ assocSet fs k v := by
      have hkveq : kv = (k0, kv.2) := by
        obtain ⟨a, b⟩ := kv
        simp only at hfst
        rw [hfst]
      rwa [hkveq] at hkv
    exact List.mem_map_of_mem Prod.fst (mem_assocSet_ne fs k k0 v kv.2 hkv2 hk)

theorem assocSet_keys_nodup (fs : List (String × Json)) (k : String) (v : Json)
    (h : (fs.map Prod.fst).Nodup) : ((assocSet fs k v).map Prod.fst).Nodup := by
  induction fs with
  | nil => simp [assocSet]
  | cons hd tl ih =>
    obtain ⟨k0, v0⟩ := hd
    simp only [List.map_cons, List.nodup_cons] at h
    by_cases h0 : k0 = k
    · simp only [assocSet, if_pos h0, List.map_cons, List.nodup_cons]
      exact ⟨h.1, h.2⟩
    · simp only [assocSet, if_neg h0, List.map_cons, List.nodup_cons]
      refine ⟨?_, ih h.2⟩
      intro hmem
      rcases mem_keys_assocSet tl k k0 v hmem with hin | heq
      · exact h.1 hin
      · exact h0 heq

theorem cleanedPayload_keys_nodup (rdFields : List (String × Json)) (cid : Json)
    (now : Nat) (h : (rdFields.map Prod.fst).Nodup) :
    ((cleanedPayload rdFields cid now).map Prod.fst).Nodup := by
  have h1 : ((cleanFields rdFields).map Prod.fst).Nodup :=
    h.sublist (cleanFields_keys_sublist rdFields)
  have h2 := assocSet_keys_nodup (cleanFields rdFields) "updated_at" (.num now) h1
  simp only [cleanedPayload]
  split
  · exact h2
  · exact assocSet_keys_nodup _ "call_key" cid h2

theorem cleanFields_cons_some (k : String) (v cv : Json)
    (rest : List (String × Json)) (h : cleanKeep v = some cv) :
    cleanFields ((k, v) :: rest) = (k, cv) :: cleanFields rest := by
  simp [cleanFields, h]

theorem cleanItems_cons_some (v cv : Json) (rest : List Json)
    (h : cleanKeep v = some cv) :
    cleanItems (v :: rest) = cv :: cleanItems rest := by
  simp [cleanItems, h]

theorem cleanKeep_str_ne (s : String) (h : s ≠ "") :
    cleanKeep (.str s) = some (.str s) := by
  simp [cleanKeep, h]

/-- Pre-existing call document of the C5 scenario: one stored conversation
entry with timestamp 1. -/
def c5Doc : CallDoc :=
  [("call_key", .str "c1"),
   ("conversation_log", .arr [.obj [("timestamp", .num 1), ("text", .str "old")]])]

/-- Incoming conversation batch: one entry duplicating timestamp 1 with new
content, one fresh entry with timestamp 2. -/
def c5Entries : List Json :=
  [.obj [("timestamp", .num 1), ("text", .str "dup")],
   .obj [("timestamp", .num 2), ("text", .str "new")]]

/-- Update payload of the C5 scenario. -/
def c5Fields : List (String × Json) :=
  [("call_key", .str "c1"), ("conversation_log", .arr c5Entries)]

/-!  C9: invariants of `clean_none_values` (src/webhook/pipecat.py lines
113-143) and their consequence on the `/webhooks/pipecat/call` merge.  -/

/-- A member that survives the per-member decision of `clean_none_values` is
never `None`, the empty string, an empty dict or an empty list, and it is
itself fully cleaned. -/
theorem cleanKeep_good (v cv : Json) (h : cleanKeep v = some cv)
    (hv : allCleanVal (cleanNoneValues v) = true) :
    jsonIsBad cv = false ∧ allCleanVal cv = true := by
  cases v with
  | null => exact Option.noConfusion h
  | str s =>
    simp only [cleanKeep] at h
    by_cases hs : s = ""
    · rw [if_pos hs] at h
      exact Option.noConfusion h
    · rw [if_neg hs] at h
      have hcv : Json.str s = cv := Option.some.inj h
      subst hcv
      exact ⟨by simp [jsonIsBad, hs], rfl⟩
  | num n =>
    simp only [cleanKeep] at h
    have hcv : Json.num n = cv := Option.some.inj h
    subst hcv
    exact ⟨rfl, rfl⟩
  | bool b =>
    simp only [cleanKeep] at h
    have hcv : Json.bool b = cv := Option.some.inj h
    subst hcv
    exact ⟨rfl, rfl⟩
  | obj fs =>
    simp only [cleanKeep] at h
    by_cases ht : jsonTruthy (Json.obj (cleanFields fs)) = true
    · rw [if_pos ht] at h
      have hcv : Json.obj (cleanFields fs) = cv := Option.some.inj h
      subst hcv
      constructor
      · show (cleanFields fs).isEmpty = false
        have ht2 : (!(cleanFields fs).isEmpty) = true := ht
        simpa using ht2
      · exact hv
    · rw [if_neg ht] at h
      exact Option.noConfusion h
  | arr its =>
    simp only [cleanKeep] at h
    by_cases ht : jsonTruthy (Json.arr (cleanItems its)) = true
    · rw [if_pos ht] at h
      have hcv : Json.arr (cleanItems its) = cv := Option.some.inj h
      subst hcv
      constructor
      · show (cleanItems its).isEmpty = false
        have ht2 : (!(cleanItems its).isEmpty) = true := ht
        simpa using ht2
      · exact hv
    · rw [if_neg ht] at h
      exact Option.noConfusion h

/-- `clean_none_values` output is clean at every nesting depth: no member at
any level is `None`, the empty string, an empty dict or an empty list. -/
theorem allCleanVal_cleanNoneValues (v : Json) :
    allCleanVal (cleanNoneValues v) = true := by
  induction v using Json.recMem with
  | hnull => rfl
  | hstr s => rfl
  | hnum n => rfl
  | hbool b => rfl
  | harr items ih =>
    show allCleanItems (cleanItems items) = true
    induction items with
    | nil => rfl
    | cons a rest ih2 =>
      have ha := ih a (List.mem_cons_self _ _)
      cases hk : cleanKeep a with
      | none =>
        rw [show cleanItems (a :: rest) = cleanItems rest from by
          simp [cleanItems, hk]]
        exact ih2 (fun w hw => ih w (List.mem_cons_of_mem _ hw))
      | some cv =>
        rw [cleanItems_cons_some a cv rest hk]
        have hg := cleanKeep_good a cv hk ha
        simp only [allCleanItems, hg.1, hg.2, Bool.not_false, Bool.true_and]
        exact ih2 (fun w hw => ih w (List.mem_cons_of_mem _ hw))
  | hobj fields ih =>
    show allCleanFields (cleanFields fields) = true
    induction fields with
    | nil => rfl
    | cons kv rest ih2 =>
      obtain ⟨k, a⟩ := kv
      have ha := ih (k, a) (List.mem_cons_self _ _)
      cases hk : cleanKeep a with
      | none =>
        rw [show cleanFields ((k, a) :: rest) = cleanFields rest from by
          simp [cleanFields, hk]]
        exact ih2 (fun w hw => ih w (List.mem_cons_of_mem _ hw))
      | some cv =>
        rw [cleanFields_cons_some k a cv rest hk]
        have hg := cleanKeep_good a cv hk ha
        simp only [allCleanFields, hg.1, hg.2, Bool.not_false, Bool.true_and]
        exact ih2 (fun w hw => ih w (List.mem_cons_of_mem _ hw))

/-- A dict member whose value survives the per-member decision unchanged
(in particular a `False` or a numeric value) is still present, unchanged,
after cleaning, under the first binding of its key. -/
theorem lookup_cleanFields_kept (fs : List (String × Json)) (k : String) (v : Json)
    (h : lookupField fs k = some v) (hkeep : cleanKeep v = some v) :
    lookupField (cleanFields fs) k = some v := by
  induction fs with
  | nil => exact Option.noConfusion h
  | cons kv rest ih =>
    obtain ⟨k0, v0⟩ := kv
    simp only [lookupField] at h
    by_cases hk : k0 = k
    · rw [if_pos hk] at h
      have hv0 : v0 = v := Option.some.inj h
      have hkeep0 : cleanKeep v0 = some v0 := by rw [hv0]; exact hkeep
      rw [cleanFields_cons_some k0 v0 v0 rest hkeep0]
      simp [lookupField, hk, hv0]
    · rw [if_neg hk] at h
      cases hck : cleanKeep v0 with
      | none =>
        rw [show cleanFields ((k0, v0) :: rest) = cleanFields rest from by
          simp [cleanFields, hck]]
        exact ih h
      | some cv =>
        rw [cleanFields_cons_some k0 v0 cv rest hck]
        simp only [lookupField, if_neg hk]
        exact ih h

/-- The first binding of a key is a binding of the field list. -/
theorem mem_of_lookupField (fs : List (String × Json)) (k : String) (v : Json)
    (h : lookupField fs k = some v) : (k, v) ∈ fs := by
  induction fs with
  | nil => exact Option.noConfusion h
  | cons kv rest ih =>
    obtain ⟨k0, v0⟩ := kv
    simp only [lookupField] at h
    by_cases hk : k0 = k
    · rw [if_pos hk] at h
      have hv0 : v0 = v := Option.some.inj h
      subst hv0
      subst hk
      exact List.mem_cons_self _ _
    · rw [if_neg hk] at h
      exact List.mem_cons_of_mem _ (ih h)

/-- With duplicate-free keys (Python dicts), two bindings of the same key
carry the same value. -/
theorem keys_nodup_mem_eq (fs : List (String × Json)) (k : String) (a b : Json)
    (hnd : (fs.map Prod.fst).Nodup)
    (ha : (k, a) ∈ fs) (hb : (k, b) ∈ fs) : a = b := by
  induction fs with
  | nil => exact absurd ha (List.not_mem_nil _)
  | cons kv rest ih =>
    simp only [List.map_cons, List.nodup_cons] at hnd
    rcases List.mem_cons.mp ha with ha1 | ha2
    · rcases List.mem_cons.mp hb with hb1 | hb2
      · exact congrArg Prod.snd (ha1.trans hb1.symm)
      · exfalso
        apply hnd.1
        have hk1 : kv.1 = k := by rw [← ha1]
        rw [hk1]
        exact List.mem_map_of_mem Prod.fst hb2
    · rcases List.mem_cons.mp hb with hb1 | hb2
      · exfalso
        apply hnd.1
        have hk1 : kv.1 = k := by rw [← hb1]
        rw [hk1]
        exact List.mem_map_of_mem Prod.fst ha2
      · exact ih hnd.2 ha2 hb2

/-- For a key that is none of the six specially merged fields, the merge
loop body is the plain meaningfulness-gated overwrite. -/
theorem callUpdateOpsForField_generic (existing : CallDoc) (key : String)
    (value : Json)
    (h1 : ¬(key = "contact" ∨ key = "service_address" ∨ key = "problem"))
    (h2 : key ≠ "conversation_log") (h3 : key ≠ "availability")
    (h4 : key ≠ "reason_codes") :
    callUpdateOpsForField existing key value
      = if meaningfulValue value then [.setTop key value] else [] := by
  unfold callUpdateOpsForField
  rw [if_neg h1, if_neg h2, if_neg h3, if_neg h4]

/-- The top-level document field a single update operator rewrites. -/
def opTargetKey : CallOp → String
  | .setTop k _ => k
  | .setNested k _ _ => k
  | .pushLog _ => "conversation_log"

theorem lookup_applyCallOp_ne (d : CallDoc) (op : CallOp) (k : String)
    (h : opTargetKey op ≠ k) :
    lookupField (applyCallOp d op) k = lookupField d k := by
  cases op with
  | setTop k2 v => exact lookup_assocSet_ne d k2 k v (Ne.symm h)
  | setNested k2 sub v => exact lookup_assocSet_ne d k2 k _ (Ne.symm h)
  | pushLog entries => exact lookup_assocSet_ne d "conversation_log" k _ (Ne.symm h)

theorem lookup_applyCallOps_no_writer (d : CallDoc) (ops : List CallOp)
    (k : String) (h : ∀ op ∈ ops, opTargetKey op ≠ k) :
    lookupField (applyCallOps d ops) k = lookupField d k := by
  induction ops generalizing d with
  | nil => rfl
  | cons op rest ih =>
    show lookupField (applyCallOps (applyCallOp d op) rest) k = lookupField d k
    rw [ih (applyCallOp d op) (fun o ho => h o (List.mem_cons_of_mem _ ho))]
    exact lookup_applyCallOp_ne d op k (h op (List.mem_cons_self _ _))

/-- When a `$set k v` occurs in the operator list and every operator that
rewrites `k` is that very one, the updated document holds `v` under `k`. -/
theorem lookup_applyCallOps_unique_writer (d : CallDoc) (ops : List CallOp)
    (k : String) (v : Json)
    (hin : CallOp.setTop k v ∈ ops)
    (hall : ∀ op ∈ ops, opTargetKey op = k → op = .setTop k v) :
    lookupField (applyCallOps d ops) k = some v := by
  induction ops generalizing d with
  | nil => exact absurd hin (List.not_mem_nil _)
  | cons op rest ih =>
    by_cases hr : CallOp.setTop k v ∈ rest
    · show lookupField (applyCallOps (applyCallOp d op) rest) k = some v
      exact ih (applyCallOp d op) hr
        (fun o ho hw => hall o (List.mem_cons_of_mem _ ho) hw)
    · have hop : op = CallOp.setTop k v := by
        rcases List.mem_cons.mp hin with h | h
        · exact h.symm
        · exact absurd h hr
      subst hop
      have hnw : ∀ o ∈ rest, opTargetKey o ≠ k := by
        intro o ho hw
        exact hr ((hall o (List.mem_cons_of_mem _ ho) hw) ▸ ho)
      show lookupField
        (applyCallOps (applyCallOp d (.setTop k v)) rest) k = some v
      rw [lookup_applyCallOps_no_writer _ rest k hnw]
      exact lookup_assocSet_self d k v

/-- Every `$set` value the merge builds (top-level or dotted) is neither
`None` nor the empty string: the cleaned payload's generic overwrites are
meaningfulness-gated, nested merges gate each sub-field, and the final
stamps are concrete non-empty values. -/
theorem buildCallOps_set_values_good (existing : CallDoc)
    (cleaned : List (String × Json)) (final : Bool) (now : Nat)
    (op : CallOp) (hop : op ∈ buildCallOps existing cleaned final now)
    (k : String) (v : Json)
    (hshape : op = .setTop k v ∨ ∃ sub, op = .setNested k sub v) :
    ¬(v = Json.null) ∧ ¬(v = Json.str "") := by
  unfold buildCallOps at hop
  rcases List.mem_append.mp hop with hl | hf
  · rw [List.mem_flatten] at hl
    obtain ⟨l, hlmem, hopl⟩ := hl
    rw [List.mem_map] at hlmem
    obtain ⟨kv, hkv, hleq⟩ := hlmem
    rw [← hleq] at hopl
    rcases callUpdateOpsForField_shapes existing kv.1 kv.2 op hopl with
      ⟨v2, hopeq, _, _, hn, hs⟩ | ⟨nk, nv, nested, hopeq, _, _, _, hmean⟩ |
      ⟨entries, hopeq, _, _⟩
    · rcases hshape with he | ⟨sub, he⟩
      · rw [hopeq] at he
        injection he with hk2 hv2
        exact ⟨hv2 ▸ hn, hv2 ▸ hs⟩
      · rw [hopeq] at he
        exact CallOp.noConfusion he
    · rcases hshape with he | ⟨sub, he⟩
      · rw [hopeq] at he
        exact CallOp.noConfusion he
      · rw [hopeq] at he
        injection he with hk2 hsub2 hv2
        constructor
        · intro hx
          rw [hv2, hx] at hmean
          simp [meaningfulValue] at hmean
        · intro hx
          rw [hv2, hx] at hmean
          simp [meaningfulValue] at hmean
    · rcases hshape with he | ⟨sub, he⟩ <;> rw [hopeq] at he <;>
        exact CallOp.noConfusion he
  · rcases hshape with he | ⟨sub, he⟩
    · subst he
      by_cases hfin : final = true
      · rw [if_pos hfin] at hf
        rcases List.mem_append.mp hf with ha | hb
        · rcases List.mem_cons.mp ha with h | h
          · injection h with hk2 hv2
            subst hv2
            exact ⟨by decide, by decide⟩
          · have h2 := List.mem_singleton.mp h
            injection h2 with hk2 hv2
            subst hv2
            exact ⟨fun hx => Json.noConfusion hx, fun hx => Json.noConfusion hx⟩
        · by_cases hmd : hasMinimumData existing cleaned = true
          · rw [if_pos hmd] at hb
            rcases List.mem_cons.mp hb with h | h
            · injection h with hk2 hv2
              subst hv2
              exact ⟨by decide, by decide⟩
            · have h2 := List.mem_singleton.mp h
              injection h2 with hk2 hv2
              subst hv2
              exact ⟨by decide, by decide⟩
          · rw [if_neg hmd] at hb
            exact absurd hb (List.not_mem_nil _)
      · rw [if_neg hfin] at hf
        exact absurd hf (List.not_mem_nil _)
    · subst he
      by_cases hfin : final = true
      · rw [if_pos hfin] at hf
        rcases List.mem_append.mp hf with ha | hb
        · rcases List.mem_cons.mp ha with h | h
          · exact CallOp.noConfusion h
          · exact CallOp.noConfusion (List.mem_singleton.mp h)
        · by_cases hmd : hasMinimumData existing cleaned = true
          · rw [if_pos hmd] at hb
            rcases List.mem_cons.mp hb with h | h
            · exact CallOp.noConfusion h
            · exact CallOp.noConfusion (List.mem_singleton.mp h)
          · rw [if_neg hmd] at hb
            exact absurd hb (List.not_mem_nil _)
      · rw [if_neg hfin] at hf
        exact absurd hf (List.not_mem_nil _)

/-- A key absent from a field list (first-binding lookup misses) heads no
binding at all. -/
theorem lookup_none_keys (fs : List (String × Json)) (k : String)
    (h : lookupField fs k = none) : ∀ kv ∈ fs, kv.1 ≠ k := by
  induction fs with
  | nil =>
    intro kv hkv
    exact absurd hkv (List.not_mem_nil _)
  | cons kv0 rest ih =>
    obtain ⟨k0, v0⟩ := kv0
    simp only [lookupField] at h
    by_cases hk : k0 = k
    · rw [if_pos hk] at h
      exact Option.noConfusion h
    · rw [if_neg hk] at h
      intro kv hkv
      rcases List.mem_cons.mp hkv with h1 | h1
      · rw [h1]
        exact hk
      · exact ih h kv h1

/-- A meaningful cleaned-payload binding of a non-special key produces its
top-level `$set` and is, with duplicate-free keys and no completion stamp
(non-final update), the only operator that rewrites that top-level field. -/
theorem buildCallOps_unique_writer (existing : CallDoc)
    (cleaned : List (String × Json)) (final : Bool) (now : Nat)
    (k : String) (v : Json)
    (hnd : (cleaned.map Prod.fst).Nodup)
    (hmem : (k, v) ∈ cleaned)
    (hmean : meaningfulValue v = true)
    (h1 : ¬(k = "contact" ∨ k = "service_address" ∨ k = "problem"))
    (h2 : k ≠ "conversation_log") (h3 : k ≠ "availability")
    (h4 : k ≠ "reason_codes")
    (hfin : final = false) :
    CallOp.setTop k v ∈ buildCallOps existing cleaned final now ∧
    ∀ op ∈ buildCallOps existing cleaned final now,
      opTargetKey op = k → op = .setTop k v := by
  unfold buildCallOps
  constructor
  · apply List.mem_append_left
    rw [List.mem_flatten]
    refine ⟨callUpdateOpsForField existing k v, ?_, ?_⟩
    · rw [List.mem_map]
      exact ⟨(k, v), hmem, rfl⟩
    · rw [callUpdateOpsForField_generic existing k v h1 h2 h3 h4, if_pos hmean]
      exact List.mem_singleton.mpr rfl
  · intro op hop hw
    rcases List.mem_append.mp hop with hl | hf
    · rw [List.mem_flatten] at hl
      obtain ⟨l, hlmem, hopl⟩ := hl
      rw [List.mem_map] at hlmem
      obtain ⟨kv, hkv, hleq⟩ := hlmem
      rw [← hleq] at hopl
      by_cases hkk : kv.1 = k
      · have hkvm : (k, kv.2) ∈ cleaned := by
          have hkve : kv = (k, kv.2) := by
            obtain ⟨a, b⟩ := kv
            simp only at hkk ⊢
            rw [hkk]
          rwa [hkve] at hkv
        have hv2 : kv.2 = v := keys_nodup_mem_eq cleaned k kv.2 v hnd hkvm hmem
        rw [hkk, hv2] at hopl
        rw [callUpdateOpsForField_generic existing k v h1 h2 h3 h4,
          if_pos hmean] at hopl
        exact List.mem_singleton.mp hopl
      · exfalso
        rcases callUpdateOpsForField_shapes existing kv.1 kv.2 op hopl with
          ⟨v2, hopeq, _, _, _, _⟩ | ⟨nk, nv, nested, hopeq, _, _, _, _⟩ |
          ⟨entries, hopeq, _, _⟩
        · rw [hopeq] at hw
          exact hkk hw
        · rw [hopeq] at hw
          exact hkk hw
        · rw [hopeq] at hw
          exact h2 hw.symm
    · exfalso
      rw [hfin] at hf
      simp at hf

/-- Without a `conversation_log` binding in the cleaned payload no push
item is built: the update document stays valid. -/
theorem buildCallOps_no_push (existing : CallDoc) (cleaned : List (String × Json))
    (final : Bool) (now : Nat)
    (h : ∀ v : Json, ("conversation_log", v) ∉ cleaned) :
    hasPushOp (buildCallOps existing cleaned final now) = false := by
  unfold hasPushOp
  rw [List.any_eq_false]
  intro op hop
  unfold buildCallOps at hop
  rcases List.mem_append.mp hop with hl | hf
  · rw [List.mem_flatten] at hl
    obtain ⟨l, hlmem, hopl⟩ := hl
    rw [List.mem_map] at hlmem
    obtain ⟨kv, hkv, hleq⟩ := hlmem
    rw [← hleq] at hopl
    rcases callUpdateOpsForField_shapes existing kv.1 kv.2 op hopl with
      ⟨v2, hopeq, _, _, _, _⟩ | ⟨nk, nv, nested, hopeq, _, _, _, _⟩ |
      ⟨entries, hopeq, hcl, _⟩
    · rw [hopeq]
      simp
    · rw [hopeq]
      simp
    · exfalso
      have hkve : kv = ("conversation_log", kv.2) := by
        obtain ⟨a, b⟩ := kv
        simp only at hcl ⊢
        rw [hcl]
      rw [hkve] at hkv
      exact h kv.2 hkv
  · by_cases hfin : final = true
    · rw [if_pos hfin] at hf
      rcases List.mem_append.mp hf with ha | hb
      · rcases List.mem_cons.mp ha with hx | hx
        · rw [hx]
          simp
        · rw [List.mem_singleton.mp hx]
          simp
      · by_cases hmd : hasMinimumData existing cleaned = true
        · rw [if_pos hmd] at hb
          rcases List.mem_cons.mp hb with hx | hx
          · rw [hx]
            simp
          · rw [List.mem_singleton.mp hx]
            simp
        · rw [if_neg hmd] at hb
          exact absurd hb (List.not_mem_nil _)
    · rw [if_neg hfin] at hf
      exact absurd hf (List.not_mem_nil _)

/-- An explicit `false` payload field under a non-special key, on a
non-final update that carries no `conversation_log` field, reaches the
stored record of an existing call: after the update some stored document
holds `false` under that key.  (On a final update the completion stamp
itself rewrites `call_completed`/`qualified`; a payload with fresh
conversation-log entries never reaches the update at all — the invalid
update document makes the endpoint answer 500.) -/
theorem handleCallWebhook_explicit_false_written (store : List CallDoc)
    (rdFields : List (String × Json)) (now : Nat) (cid : Json)
    (existing : CallDoc) (k : String)
    (hres : resolveCallIdentifier rdFields = some cid)
    (hcid : jsonTruthy cid = true)
    (hnd : (rdFields.map Prod.fst).Nodup)
    (hfound : store.find? (fun d => matchesCall d cid) = some existing)
    (hlk : lookupField rdFields k = some (.bool false))
    (hfin : isFinalUpdate (cleanedPayload rdFields cid now) = false)
    (hnoconv : lookupField rdFields "conversation_log" = none)
    (hk : ¬ k ∈ (["contact", "service_address", "problem", "conversation_log",
        "availability", "reason_codes", "updated_at",
        "call_key"] : List String)) :
    ∃ updated ∈ (handleCallWebhook store (some (.obj rdFields)) now).2,
      lookupField updated k = some (.bool false) := by
  have hne : rdFields ≠ [] := by
    intro h
    rw [h] at hlk
    exact Option.noConfusion hlk
  simp only [List.mem_cons, List.not_mem_nil, or_false] at hk
  push_neg at hk
  obtain ⟨hk1, hk2, hk3, hk4, hk5, hk6, hk7, hk8⟩ := hk
  have hlk1 : lookupField (cleanFields rdFields) k = some (.bool false) :=
    lookup_cleanFields_kept rdFields k (.bool false) hlk rfl
  have hlk2 : lookupField (cleanedPayload rdFields cid now) k
      = some (.bool false) := by
    simp only [cleanedPayload]
    by_cases hck : (lookupField (assocSet (cleanFields rdFields) "updated_at"
        (.num now)) "call_key").isSome = true
    · rw [if_pos hck, lookup_assocSet_ne _ _ _ _ hk7]
      exact hlk1
    · rw [if_neg hck, lookup_assocSet_ne _ _ _ _ hk8,
        lookup_assocSet_ne _ _ _ _ hk7]
      exact hlk1
  have hmemc : (k, Json.bool false) ∈ cleanedPayload rdFields cid now :=
    mem_of_lookupField _ _ _ hlk2
  have hndc : ((cleanedPayload rdFields cid now).map Prod.fst).Nodup :=
    cleanedPayload_keys_nodup rdFields cid now hnd
  have h1 : ¬(k = "contact" ∨ k = "service_address" ∨ k = "problem") := by
    push_neg
    exact ⟨hk1, hk2, hk3⟩
  have huw := buildCallOps_unique_writer existing (cleanedPayload rdFields cid now)
    (isFinalUpdate (cleanedPayload rdFields cid now)) now k (.bool false)
    hndc hmemc rfl h1 hk4 hk5 hk6 hfin
  have hopsne : ∀ (l : List CallOp), CallOp.setTop k (Json.bool false) ∈ l →
      l.isEmpty = false := by
    intro l hmem2
    cases l with
    | nil => exact absurd hmem2 (List.not_mem_nil _)
    | cons a t => rfl
  have hnoc : ∀ v : Json,
      ("conversation_log", v) ∉ cleanedPayload rdFields cid now := by
    intro v hv
    have hv2 := mem_cleanedPayload_of_ne rdFields cid now "conversation_log" v
      (by decide) (by decide) hv
    obtain ⟨v0, hv0, _⟩ := mem_cleanFields_src _ _ _ hv2
    exact (lookup_none_keys rdFields "conversation_log" hnoconv
      ("conversation_log", v0) hv0) rfl
  have hnp := buildCallOps_no_push existing (cleanedPayload rdFields cid now)
    (isFinalUpdate (cleanedPayload rdFields cid now)) now hnoc
  have hstate := handleCallWebhook_existing_state store rdFields now cid existing
    hres hcid hne hfound hnp
  rw [hstate]
  simp only [hopsne _ huw.1, Bool.false_eq_true, if_false]
  refine ⟨applyCallOps existing (buildCallOps existing
      (cleanedPayload rdFields cid now)
      (isFinalUpdate (cleanedPayload rdFields cid now)) now),
    mem_updateFirstCall store cid _ existing hfound, ?_⟩
  exact lookup_applyCallOps_unique_writer existing _ k (.bool false) huw.1 huw.2

/-- C9: `clean_none_values` is pure and its output at every nesting depth
contains no `None` values, no empty strings and no empty dicts or lists,
while `False` and numeric (in particular `0`) dict members are preserved
unchanged; consequently the call-webhook merge never builds a `$set` whose
value is `None` or `""`, and an explicit `false` payload field (for example
`call_completed: false` on a non-final update) is written to the existing
CallRecord, provided the payload carries no conversation-log field (fresh
conversation entries make the update document invalid and the endpoint
answer 500 before anything is written). -/
theorem C9_clean_none_values_invariant :
    (∀ v, allCleanVal (cleanNoneValues v) = true) ∧
    (∀ fs k (b : Bool), lookupField fs k = some (.bool b) →
      lookupField (cleanFields fs) k = some (.bool b)) ∧
    (∀ fs k (n : Int), lookupField fs k = some (.num n) →
      lookupField (cleanFields fs) k = some (.num n)) ∧
    (∀ existing cleaned final now op k v,
      op ∈ buildCallOps existing cleaned final now →
      (op = CallOp.setTop k v ∨ ∃ sub, op = CallOp.setNested k sub v) →
      ¬(v = Json.null) ∧ ¬(v = Json.str "")) ∧
    (∀ store rdFields now cid existing k,
      resolveCallIdentifier rdFields = some cid →
      jsonTruthy cid = true →
      (rdFields.map Prod.fst).Nodup →
      store.find? (fun d => matchesCall d cid) = some existing →
      lookupField rdFields k = some (.bool false) →
      isFinalUpdate (cleanedPayload rdFields cid now) = false →
      lookupField rdFields "conversation_log" = none →
      ¬ k ∈ (["contact", "service_address", "problem", "conversation_log",
          "availability", "reason_codes", "updated_at",
          "call_key"] : List String) →
      ∃ updated ∈ (handleCallWebhook store (some (.obj rdFields)) now).2,
        lookupField updated k = some (.bool false)) := by
  refine ⟨allCleanVal_cleanNoneValues, ?_, ?_, ?_, ?_⟩
  · intro fs k b h
    exact lookup_cleanFields_kept fs k (.bool b) h rfl
  · intro fs k n h
    exact lookup_cleanFields_kept fs k (.num n) h rfl
  · intro existing cleaned final now op k v hop hsh
    exact buildCallOps_set_values_good existing cleaned final now op hop k v hsh
  · intro store rdFields now cid existing k hres hcid hnd hfound hlk hfin hnoconv hk
    exact handleCallWebhook_explicit_false_written store rdFields now cid
      existing k hres hcid hnd hfound hlk hfin hnoconv hk

theorem C9_clean_none_values_invariant_witness :
    allCleanVal (cleanNoneValues (Json.obj [("a", Json.null), ("b", Json.str ""),
      ("c", Json.bool false), ("d", Json.num 0),
      ("e", Json.obj [("x", Json.null)])])) = true ∧
    ∃ updated ∈ (handleCallWebhook
        [[("call_key", Json.str "c9"), ("call_completed", Json.bool true)]]
        (some (Json.obj [("call_key", Json.str "c9"),
          ("call_completed", Json.bool false)])) 7).2,
      lookupField updated "call_completed" = some (Json.bool false) := by
  constructor
  · exact C9_clean_none_values_invariant.1 _
  · exact C9_clean_none_values_invariant.2.2.2.2
      [[("call_key", Json.str "c9"), ("call_completed", Json.bool true)]]
      [("call_key", Json.str "c9"), ("call_completed", Json.bool false)]
      7 (Json.str "c9")
      [("call_key", Json.str "c9"), ("call_completed", Json.bool true)]
      "call_completed" (by decide) (by decide) (by decide) (by decide)
      (by decide) (by decide) (by decide) (by decide)

/-!  C10: voice-event accumulation and convergence on one document.  -/

/-- Stored `events` array of a call document (`[]` when absent), the list
the voice endpoint's `$push` extends. -/
def storedEvents (d : CallDoc) : List Json :=
  match lookupField d "events" with
  | some (.arr xs) => xs
  | _ => []

/-- In a conflict-free non-initiated update, no merged payload field
addresses `call_key`, `created_at` or `events` (those would collide with
`$setOnInsert` / `$push` and make the driver raise). -/
theorem voiceMergeFields_keys (payload : Json)
    (hcf : voiceUpdateConflict payload = false)
    (hcs : ¬ jgetD payload "call_status" (.str "unknown_status")
      = .str "initiated") :
    ∀ kv ∈ voiceMergeFields payload,
      kv.1 ≠ "call_key" ∧ kv.1 ≠ "created_at" ∧ kv.1 ≠ "events" := by
  intro kv hkv
  have hany : (voiceMergeFields payload).any (fun kv =>
      kv.1 = "call_key" ∨ kv.1 = "created_at" ∨ kv.1 = "events") = false := by
    by_contra hb
    rw [Bool.not_eq_false] at hb
    have hc2 : voiceUpdateConflict payload = true := by
      simp only [voiceUpdateConflict, decide_eq_true_eq]
      exact ⟨hcs, hb⟩
    rw [hc2] at hcf
    exact Bool.noConfusion hcf
  rw [List.any_eq_false] at hany
  have h2 := hany kv hkv
  simp only [decide_eq_true_eq, not_or] at h2
  exact h2

/-- Every application of the voice update document appends exactly one
event entry — the `$push` never deduplicates, so a byte-identical replay
still grows `events` by one. -/
theorem voiceMutate_events (d : CallDoc) (payload : Json) (now : Nat)
    (hcf : voiceUpdateConflict payload = false) :
    lookupField (voiceMutate d payload now) "events"
      = some (.arr (storedEvents d ++ [voiceEventDoc payload now])) := by
  simp only [voiceMutate]
  by_cases hcs : jgetD payload "call_status" (.str "unknown_status")
      = Json.str "initiated"
  · rw [if_pos hcs]
    rw [lookup_assocSet_ne _ "initial_payload" "events" _ (by decide),
      lookup_assocSet_ne _ "telnyx_metadata" "events" _ (by decide),
      lookup_assocSet_ne _ "to" "events" _ (by decide),
      lookup_assocSet_ne _ "from" "events" _ (by decide),
      lookup_assocSet_ne _ "updated_at" "events" _ (by decide),
      lookup_assocSet_ne _ "last_event_type" "events" _ (by decide),
      lookup_assocSet_ne _ "last_status" "events" _ (by decide)]
    simp only [pushEvents]
    exact lookup_assocSet_self d "events" _
  · rw [if_neg hcs]
    rw [lookup_foldl_assocSet_ne _ _ "events"
      (fun kv hkv => (voiceMergeFields_keys payload hcf hcs kv hkv).2.2)]
    rw [lookup_assocSet_ne _ "updated_at" "events" _ (by decide),
      lookup_assocSet_ne _ "last_event_type" "events" _ (by decide),
      lookup_assocSet_ne _ "last_status" "events" _ (by decide)]
    simp only [pushEvents]
    exact lookup_assocSet_self d "events" _

/-- A conflict-free voice update never rewrites `call_key`. -/
theorem voiceMutate_call_key (d : CallDoc) (payload : Json) (now : Nat)
    (hcf : voiceUpdateConflict payload = false) :
    lookupField (voiceMutate d payload now) "call_key"
      = lookupField d "call_key" := by
  simp only [voiceMutate]
  by_cases hcs : jgetD payload "call_status" (.str "unknown_status")
      = Json.str "initiated"
  · rw [if_pos hcs]
    rw [lookup_assocSet_ne _ "initial_payload" "call_key" _ (by decide),
      lookup_assocSet_ne _ "telnyx_metadata" "call_key" _ (by decide),
      lookup_assocSet_ne _ "to" "call_key" _ (by decide),
      lookup_assocSet_ne _ "from" "call_key" _ (by decide),
      lookup_assocSet_ne _ "updated_at" "call_key" _ (by decide),
      lookup_assocSet_ne _ "last_event_type" "call_key" _ (by decide),
      lookup_assocSet_ne _ "last_status" "call_key" _ (by decide)]
    simp only [pushEvents]
    exact lookup_assocSet_ne d "events" "call_key" _ (by decide)
  · rw [if_neg hcs]
    rw [lookup_foldl_assocSet_ne _ _ "call_key"
      (fun kv hkv => (voiceMergeFields_keys payload hcf hcs kv hkv).1)]
    rw [lookup_assocSet_ne _ "updated_at" "call_key" _ (by decide),
      lookup_assocSet_ne _ "last_event_type" "call_key" _ (by decide),
      lookup_assocSet_ne _ "last_status" "call_key" _ (by decide)]
    simp only [pushEvents]
    exact lookup_assocSet_ne d "events" "call_key" _ (by decide)

/-- After any voice update whose payload carries no literal `last_status` /
`last_event_type` fields, the document's `last_status` and
`last_event_type` are those of this (most recent) delivery. -/
theorem voiceMutate_status (d : CallDoc) (pfs : List (String × Json)) (now : Nat)
    (hns : lookupField pfs "last_status" = none)
    (hnet : lookupField pfs "last_event_type" = none) :
    lookupField (voiceMutate d (.obj pfs) now) "last_status"
      = some (jgetD (.obj pfs) "call_status" (.str "unknown_status")) ∧
    lookupField (voiceMutate d (.obj pfs) now) "last_event_type"
      = some (jgetD (.obj pfs) "event_type" (.str "unknown_event")) := by
  simp only [voiceMutate]
  by_cases hcs : jgetD (Json.obj pfs) "call_status" (.str "unknown_status")
      = Json.str "initiated"
  · rw [if_pos hcs]
    constructor
    · rw [lookup_assocSet_ne _ "initial_payload" "last_status" _ (by decide),
        lookup_assocSet_ne _ "telnyx_metadata" "last_status" _ (by decide),
        lookup_assocSet_ne _ "to" "last_status" _ (by decide),
        lookup_assocSet_ne _ "from" "last_status" _ (by decide),
        lookup_assocSet_ne _ "updated_at" "last_status" _ (by decide),
        lookup_assocSet_ne _ "last_event_type" "last_status" _ (by decide)]
      exact lookup_assocSet_self _ "last_status" _
    · rw [lookup_assocSet_ne _ "initial_payload" "last_event_type" _ (by decide),
        lookup_assocSet_ne _ "telnyx_metadata" "last_event_type" _ (by decide),
        lookup_assocSet_ne _ "to" "last_event_type" _ (by decide),
        lookup_assocSet_ne _ "from" "last_event_type" _ (by decide),
        lookup_assocSet_ne _ "updated_at" "last_event_type" _ (by decide)]
      exact lookup_assocSet_self _ "last_event_type" _
  · rw [if_neg hcs]
    constructor
    · rw [lookup_foldl_assocSet_ne (voiceMergeFields (Json.obj pfs)) _ "last_status"
        (fun kv hkv => lookup_none_keys pfs "last_status" hns kv
          (List.mem_of_mem_filter hkv))]
      rw [lookup_assocSet_ne _ "updated_at" "last_status" _ (by decide),
        lookup_assocSet_ne _ "last_event_type" "last_status" _ (by decide)]
      exact lookup_assocSet_self _ "last_status" _
    · rw [lookup_foldl_assocSet_ne (voiceMergeFields (Json.obj pfs)) _ "last_event_type"
        (fun kv hkv => lookup_none_keys pfs "last_event_type" hnet kv
          (List.mem_of_mem_filter hkv))]
      rw [lookup_assocSet_ne _ "updated_at" "last_event_type" _ (by decide)]
      exact lookup_assocSet_self _ "last_event_type" _

theorem matches_false_of_find_none (store : List CallDoc) (k : Json)
    (h : store.find? (fun d => matchesVoiceKey d k) = none) :
    ∀ d ∈ store, matchesVoiceKey d k = false := by
  induction store with
  | nil =>
    intro d hd
    exact absurd hd (List.not_mem_nil _)
  | cons a t ih =>
    simp only [List.find?_cons] at h
    by_cases ha : matchesVoiceKey a k = true
    · rw [ha] at h
      exact Option.noConfusion h
    · rw [Bool.not_eq_true] at ha
      rw [ha] at h
      intro d hd
      rcases List.mem_cons.mp hd with h1 | h1
      · rw [h1]
        exact ha
      · exact ih h d h1

theorem find_voice_append (store : List CallDoc) (k : Json) (D : CallDoc)
    (h : ∀ d ∈ store, matchesVoiceKey d k = false)
    (hD : matchesVoiceKey D k = true) :
    (store ++ [D]).find? (fun d => matchesVoiceKey d k) = some D := by
  induction store with
  | nil => simp [List.find?_cons, hD]
  | cons a t ih =>
    have ha := h a (List.mem_cons_self _ _)
    rw [List.cons_append]
    simp only [List.find?_cons, ha]
    exact ih (fun d hd => h d (List.mem_cons_of_mem _ hd))

theorem updateFirstVoice_append (store : List CallDoc) (k : Json)
    (f : CallDoc → CallDoc) (D : CallDoc)
    (h : ∀ d ∈ store, matchesVoiceKey d k = false)
    (hD : matchesVoiceKey D k = true) :
    updateFirstVoice (store ++ [D]) k f = store ++ [f D] := by
  induction store with
  | nil => simp [updateFirstVoice, hD]
  | cons a t ih =>
    have ha := h a (List.mem_cons_self _ _)
    rw [List.cons_append, List.cons_append]
    simp only [updateFirstVoice, ha, Bool.false_eq_true, if_false]
    rw [ih (fun d hd => h d (List.mem_cons_of_mem _ hd))]

/-- `n` deliveries of the same voice payload at times `t 0, …, t (n-1)`. -/
def voiceReplay (store : List CallDoc) (payload : Json) (t : Nat → Nat) :
    Nat → List CallDoc
  | 0 => store
  | n+1 => (handleVoiceWebhook (voiceReplay store payload t n) payload (t n)).2

/-- The single document the replays converge on: the upsert-inserted seed
mutated once per delivery. -/
def voiceDoc (payload : Json) (t : Nat → Nat) : Nat → CallDoc
  | 0 => voiceMutate
      [("call_key", resolveVoiceCallKey payload), ("created_at", .num (t 0))]
      payload (t 0)
  | n+1 => voiceMutate (voiceDoc payload t n) payload (t (n+1))

theorem storedEvents_eq (d : CallDoc) (xs : List Json)
    (h : lookupField d "events" = some (.arr xs)) : storedEvents d = xs := by
  simp [storedEvents, h]

theorem handleVoiceWebhook_found (store : List CallDoc) (pfs : List (String × Json))
    (now : Nat) (existing : CallDoc)
    (hpne : pfs ≠ [])
    (hkey : jsonTruthy (resolveVoiceCallKey (.obj pfs)) = true)
    (hcf : voiceUpdateConflict (.obj pfs) = false)
    (hfound : store.find? (fun d => matchesVoiceKey d (resolveVoiceCallKey (.obj pfs)))
      = some existing) :
    (handleVoiceWebhook store (.obj pfs) now).2
      = updateFirstVoice store (resolveVoiceCallKey (.obj pfs))
          (fun d => voiceMutate d (.obj pfs) now) := by
  have hbody : jsonTruthy (Json.obj pfs) = true := by
    simp [jsonTruthy, List.isEmpty_iff, hpne]
  simp only [handleVoiceWebhook, hbody, Bool.not_true, Bool.false_eq_true,
    if_false, hkey, hcf, hfound]

theorem handleVoiceWebhook_insert (store : List CallDoc) (pfs : List (String × Json))
    (now : Nat)
    (hpne : pfs ≠ [])
    (hkey : jsonTruthy (resolveVoiceCallKey (.obj pfs)) = true)
    (hcf : voiceUpdateConflict (.obj pfs) = false)
    (hnone : store.find? (fun d => matchesVoiceKey d (resolveVoiceCallKey (.obj pfs)))
      = none) :
    (handleVoiceWebhook store (.obj pfs) now).2
      = store ++ [voiceMutate
          [("call_key", resolveVoiceCallKey (.obj pfs)), ("created_at", .num now)]
          (.obj pfs) now] := by
  have hbody : jsonTruthy (Json.obj pfs) = true := by
    simp [jsonTruthy, List.isEmpty_iff, hpne]
  simp only [handleVoiceWebhook, hbody, Bool.not_true, Bool.false_eq_true,
    if_false, hkey, hcf, hnone]

/-- Replaying one conflict-free voice payload `n+1` times against a store
with no document for its resolved key converges on a single appended
document: `events` holds one entry per delivery (no dedup) and
`last_status` / `last_event_type` are those of the most recent delivery. -/
theorem voiceReplay_converges (store : List CallDoc) (pfs : List (String × Json))
    (t : Nat → Nat)
    (hpne : pfs ≠ [])
    (hkey : jsonTruthy (resolveVoiceCallKey (.obj pfs)) = true)
    (hcf : voiceUpdateConflict (.obj pfs) = false)
    (hns : lookupField pfs "last_status" = none)
    (hnet : lookupField pfs "last_event_type" = none)
    (hnone : store.find? (fun d => matchesVoiceKey d (resolveVoiceCallKey (.obj pfs)))
      = none) :
    ∀ n, voiceReplay store (.obj pfs) t (n+1)
        = store ++ [voiceDoc (.obj pfs) t n] ∧
      lookupField (voiceDoc (.obj pfs) t n) "call_key"
        = some (resolveVoiceCallKey (.obj pfs)) ∧
      storedEvents (voiceDoc (.obj pfs) t n)
        = (List.range (n+1)).map (fun i => voiceEventDoc (.obj pfs) (t i)) ∧
      lookupField (voiceDoc (.obj pfs) t n) "last_status"
        = some (jgetD (.obj pfs) "call_status" (.str "unknown_status")) ∧
      lookupField (voiceDoc (.obj pfs) t n) "last_event_type"
        = some (jgetD (.obj pfs) "event_type" (.str "unknown_event")) := by
  intro n
  induction n with
  | zero =>
    refine ⟨?_, ?_, ?_, ?_, ?_⟩
    · show (handleVoiceWebhook store (.obj pfs) (t 0)).2
        = store ++ [voiceDoc (.obj pfs) t 0]
      rw [handleVoiceWebhook_insert store pfs (t 0) hpne hkey hcf hnone]
      rfl
    · show lookupField (voiceMutate
        [("call_key", resolveVoiceCallKey (.obj pfs)), ("created_at", .num (t 0))]
        (.obj pfs) (t 0)) "call_key" = some (resolveVoiceCallKey (.obj pfs))
      rw [voiceMutate_call_key _ _ _ hcf]
      simp [lookupField]
    · show storedEvents (voiceMutate
        [("call_key", resolveVoiceCallKey (.obj pfs)), ("created_at", .num (t 0))]
        (.obj pfs) (t 0))
        = (List.range 1).map (fun i => voiceEventDoc (.obj pfs) (t i))
      rw [storedEvents_eq _ _ (voiceMutate_events
        [("call_key", resolveVoiceCallKey (.obj pfs)), ("created_at", .num (t 0))]
        (.obj pfs) (t 0) hcf)]
      simp [storedEvents, lookupField, List.range_succ]
    · exact (voiceMutate_status _ pfs (t 0) hns hnet).1
    · exact (voiceMutate_status _ pfs (t 0) hns hnet).2
  | succ n ih =>
    obtain ⟨hst, hck, hev, hls, hlet⟩ := ih
    have hmatch : matchesVoiceKey (voiceDoc (.obj pfs) t n)
        (resolveVoiceCallKey (.obj pfs)) = true := by
      simp [matchesVoiceKey, hck]
    have hallfalse := matches_false_of_find_none store _ hnone
    have hfound : (store ++ [voiceDoc (.obj pfs) t n]).find?
        (fun d => matchesVoiceKey d (resolveVoiceCallKey (.obj pfs)))
        = some (voiceDoc (.obj pfs) t n) :=
      find_voice_append store _ _ hallfalse hmatch
    refine ⟨?_, ?_, ?_, ?_, ?_⟩
    · show (handleVoiceWebhook (voiceReplay store (.obj pfs) t (n+1))
          (.obj pfs) (t (n+1))).2 = store ++ [voiceDoc (.obj pfs) t (n+1)]
      rw [hst]
      rw [handleVoiceWebhook_found (store ++ [voiceDoc (.obj pfs) t n]) pfs
        (t (n+1)) (voiceDoc (.obj pfs) t n) hpne hkey hcf hfound]
      rw [updateFirstVoice_append store _ _ _ hallfalse hmatch]
      rfl
    · show lookupField (voiceMutate (voiceDoc (.obj pfs) t n) (.obj pfs)
          (t (n+1))) "call_key" = some (resolveVoiceCallKey (.obj pfs))
      rw [voiceMutate_call_key _ _ _ hcf]
      exact hck
    · show storedEvents (voiceMutate (voiceDoc (.obj pfs) t n) (.obj pfs)
          (t (n+1)))
        = (List.range (n+2)).map (fun i => voiceEventDoc (.obj pfs) (t i))
      rw [storedEvents_eq _ _ (voiceMutate_events (voiceDoc (.obj pfs) t n)
        (.obj pfs) (t (n+1)) hcf), hev]
      simp [List.range_succ]
    · exact (voiceMutate_status _ pfs (t (n+1)) hns hnet).1
    · exact (voiceMutate_status _ pfs (t (n+1)) hns hnet).2

/-- C10: every accepted voice POST appends exactly one entry
(`ts`/`event_type`/`call_status`/full payload) to the matched document's
`events` array with no deduplication — a byte-identical replay grows the
array again — and replaying one payload `n+1` times against a store with no
document for its resolved key converges on a single matching document
holding one event per delivery, whose `last_status` and `last_event_type`
are those of the most recent delivery. -/
theorem C10_voice_event_accumulation :
    (∀ (d : CallDoc) (payload : Json) (now : Nat),
      voiceUpdateConflict payload = false →
      lookupField (voiceMutate d payload now) "events"
        = some (.arr (storedEvents d ++ [voiceEventDoc payload now]))) ∧
    (∀ (store : List CallDoc) (pfs : List (String × Json)) (t : Nat → Nat),
      pfs ≠ [] →
      jsonTruthy (resolveVoiceCallKey (.obj pfs)) = true →
      voiceUpdateConflict (.obj pfs) = false →
      lookupField pfs "last_status" = none →
      lookupField pfs "last_event_type" = none →
      store.find? (fun d => matchesVoiceKey d (resolveVoiceCallKey (.obj pfs)))
        = none →
      ∀ n, voiceReplay store (.obj pfs) t (n+1)
          = store ++ [voiceDoc (.obj pfs) t n] ∧
        (voiceReplay store (.obj pfs) t (n+1)).filter
            (fun d => matchesVoiceKey d (resolveVoiceCallKey (.obj pfs)))
          = [voiceDoc (.obj pfs) t n] ∧
        storedEvents (voiceDoc (.obj pfs) t n)
          = (List.range (n+1)).map (fun i => voiceEventDoc (.obj pfs) (t i)) ∧
        lookupField (voiceDoc (.obj pfs) t n) "last_status"
          = some (jgetD (.obj pfs) "call_status" (.str "unknown_status")) ∧
        lookupField (voiceDoc (.obj pfs) t n) "last_event_type"
          = some (jgetD (.obj pfs) "event_type" (.str "unknown_event"))) := by
  constructor
  · intro d payload now hcf
    exact voiceMutate_events d payload now hcf
  · intro store pfs t hpne hkey hcf hns hnet hnone n
    obtain ⟨h1, h2, h3, h4, h5⟩ :=
      voiceReplay_converges store pfs t hpne hkey hcf hns hnet hnone n
    refine ⟨h1, ?_, h3, h4, h5⟩
    rw [h1, List.filter_append]
    have hstore : store.filter (fun d => matchesVoiceKey d
        (resolveVoiceCallKey (.obj pfs))) = [] := by
      rw [List.filter_eq_nil_iff]
      intro d hd
      simp [matches_false_of_find_none store _ hnone d hd]
    have hm : matchesVoiceKey (voiceDoc (.obj pfs) t n)
        (resolveVoiceCallKey (.obj pfs)) = true := by
      simp [matchesVoiceKey, h2]
    rw [hstore]
    simp [List.filter_cons, hm]

/-- Concrete replayed voice payload: a non-initiated status update keyed by
`telnyx.call_session_id`. -/
def c10Payload : Json := .obj [
  ("event_type", .str "status_update"),
  ("call_status", .str "completed"),
  ("telnyx", .obj [("call_session_id", .str "s1")])]

theorem C10_voice_event_accumulation_witness :
    voiceReplay [] c10Payload (fun i => i + 3) 2
      = [voiceDoc c10Payload (fun i => i + 3) 1] ∧
    storedEvents (voiceDoc c10Payload (fun i => i + 3) 1)
      = [voiceEventDoc c10Payload 3, voiceEventDoc c10Payload 4] ∧
    lookupField (voiceDoc c10Payload (fun i => i + 3) 1) "last_status"
      = some (.str "completed") := by
  have h := C10_voice_event_accumulation.2 []
    [("event_type", Json.str "status_update"),
     ("call_status", Json.str "completed"),
     ("telnyx", Json.obj [("call_session_id", Json.str "s1")])]
    (fun i => i + 3) (by decide) (by decide) (by decide) (by decide)
    (by decide) (by decide) 1
  exact ⟨h.1, h.2.2.1, h.2.2.2.1⟩

/-!  C5: the conversation-log append path.  The handler computes the
timestamp-deduplicated fresh entries, but lines 430-431 of
src/webhook/pipecat.py merge `push_operations` into the update query as a
top-level `conversation_log` key next to `$set` — an invalid MongoDB update
document — so `update_one` raises and the endpoint answers 500 with
nothing persisted whenever a fresh-timestamp entry is present.  -/

/-- A non-empty conversation-log batch with at least one fresh timestamp
contributes exactly the push item carrying the deduplicated fresh
entries. -/
theorem convlog_op_push (existing : CallDoc) (entries : List Json)
    (hfr : (newLogEntries (storedConversationLog existing) entries).isEmpty
      = false) :
    callUpdateOpsForField existing "conversation_log" (.arr entries)
      = [.pushLog (newLogEntries (storedConversationLog existing) entries)] := by
  have hent : entries.isEmpty = false := by
    cases hc : entries.isEmpty
    · rfl
    · exfalso
      have he : entries = [] := List.isEmpty_iff.mp hc
      rw [he] at hfr
      simp [newLogEntries] at hfr
  unfold callUpdateOpsForField
  rw [if_neg (by decide), if_pos rfl]
  show (if entries.isEmpty = true then ([] : List CallOp) else
      if (newLogEntries (storedConversationLog existing) entries).isEmpty = true
      then []
      else [CallOp.pushLog (newLogEntries (storedConversationLog existing) entries)])
    = [CallOp.pushLog (newLogEntries (storedConversationLog existing) entries)]
  rw [if_neg (by rw [hent]; exact Bool.false_ne_true),
      if_neg (by rw [hfr]; exact Bool.false_ne_true)]

/-- A cleaned payload carrying a conversation-log batch with a fresh
timestamp makes the built operator list contain a push item. -/
theorem buildCallOps_has_push (existing : CallDoc)
    (cleaned : List (String × Json)) (final : Bool) (now : Nat)
    (entries : List Json)
    (hmem : ("conversation_log", Json.arr entries) ∈ cleaned)
    (hfr : (newLogEntries (storedConversationLog existing) entries).isEmpty
      = false) :
    hasPushOp (buildCallOps existing cleaned final now) = true := by
  have hin : CallOp.pushLog (newLogEntries (storedConversationLog existing) entries)
      ∈ buildCallOps existing cleaned final now := by
    unfold buildCallOps
    apply List.mem_append_left
    rw [List.mem_flatten]
    refine ⟨callUpdateOpsForField existing "conversation_log" (.arr entries),
      ?_, ?_⟩
    · rw [List.mem_map]
      exact ⟨("conversation_log", .arr entries), hmem, rfl⟩
    · rw [convlog_op_push existing entries hfr]
      exact List.mem_singleton.mpr rfl
  unfold hasPushOp
  rw [List.any_eq_true]
  exact ⟨_, hin, rfl⟩

/-- C5: REFUTED of the program — the claimed dedup-append never happens.
The handler computes the fresh (timestamp-deduplicated) entries, but
`update_query.update(push_operations)` (src/webhook/pipecat.py 430-431)
places them under a top-level `conversation_log` key next to `$set`;
MongoDB rejects that update document, `update_one` raises, and the endpoint
answers 500 with the store unchanged.  In particular two deliveries of a
same-timestamp entry store zero entries, not one. -/
theorem C5_conversation_log_push_rejected :
    (∀ (store : List CallDoc) (rdFields : List (String × Json)) (now : Nat)
       (cid : Json) (existing : CallDoc) (entries : List Json),
      resolveCallIdentifier rdFields = some cid →
      jsonTruthy cid = true →
      rdFields ≠ [] →
      store.find? (fun d => matchesCall d cid) = some existing →
      lookupField (cleanedPayload rdFields cid now) "conversation_log"
        = some (.arr entries) →
      (newLogEntries (storedConversationLog existing) entries).isEmpty = false →
      handleCallWebhook store (some (.obj rdFields)) now
        = (.serverError, store)) ∧
    (handleCallWebhook [c5Doc] (some (.obj c5Fields)) 7
        = (.serverError, [c5Doc]) ∧
      (handleCallWebhook
        (handleCallWebhook [c5Doc] (some (.obj [("call_key", .str "c1"),
          ("conversation_log",
           .arr [.obj [("timestamp", .num 5), ("text", .str "a")]])])) 3).2
        (some (.obj [("call_key", .str "c1"),
          ("conversation_log",
           .arr [.obj [("timestamp", .num 5), ("text", .str "b")]])])) 4).2
        = [c5Doc] ∧
      ((storedConversationLog c5Doc).filter
        (fun e => entryTimestamp e = .num 5)).length = 0) := by
  constructor
  · intro store rdFields now cid existing entries hres hcid hne hfound hlog hfr
    have hmem := mem_of_lookupField _ _ _ hlog
    have hp := buildCallOps_has_push existing (cleanedPayload rdFields cid now)
      (isFinalUpdate (cleanedPayload rdFields cid now)) now entries hmem hfr
    exact handleCallWebhook_push_error store rdFields now cid existing
      hres hcid hne hfound hp
  · exact ⟨by decide, by decide, by decide⟩

/-- Witness for C5: at the concrete record and batch (one duplicate-
timestamp entry, one fresh entry) the request is rejected with a 500 and
the store is unchanged. -/
theorem C5_conversation_log_push_rejected_witness :
    handleCallWebhook [c5Doc] (some (.obj c5Fields)) 7
      = (.serverError, [c5Doc]) :=
  C5_conversation_log_push_rejected.1 [c5Doc] c5Fields 7 (.str "c1") c5Doc
    c5Entries (by decide) (by decide) (by decide) (by decide) (by decide)
    (by decide)
